import Mathlib

/-!
Verification of the UEFI-Binary-Tool container codec against its
natural-language specification.

The development shallowly embeds the Python sources:
* `src/asus/repacker/asus_repacker.py` (format A: the ASUS packer scanner,
  change detector, direct-replace and structure-preserving rebuild),
* `src/msi/repacker/msi_repacker.py` and `src/msi/analyzer/msi_analyzer.py`
  (format B: the MSI packer),
* the embedded-file sniffing loop of `src/asus/analyzer/asus_analyzer.py`.

Byte buffers are `List Nat` (one `Nat` per byte).  Python slices
`data[a:b]` become `extract data a (b - a)`; little-endian 32-bit reads
become `bytesToNatLE`/`readLE32T`.  Loops are embedded as fuel-indexed
structural recursions; the top-level wrappers supply fuel that is proved
sufficient, so no observable behaviour depends on the fuel.
-/

/-- Decidable equality for `Except`, used to evaluate the embedded
fallible operations on concrete inputs. -/
instance instDecidableEqExcept {ε α : Type} [DecidableEq ε] [DecidableEq α] :
    DecidableEq (Except ε α) := fun x y =>
  match x, y with
  | .error a, .error b =>
    if h : a = b then .isTrue (congrArg Except.error h)
    else .isFalse (fun hc => h (Except.error.inj hc))
  | .ok a, .ok b =>
    if h : a = b then .isTrue (congrArg Except.ok h)
    else .isFalse (fun hc => h (Except.ok.inj hc))
  | .error _, .ok _ => .isFalse (fun hc => Except.noConfusion hc)
  | .ok _, .error _ => .isFalse (fun hc => Except.noConfusion hc)

/-- Python slice `data[i : i+n]` (clamps at the end of the buffer,
empty beyond the end). -/
def extract (data : List Nat) (i n : Nat) : List Nat :=
  (data.drop i).take n

/-- Little-endian value of a byte list (`int.from_bytes(bs, "little")`). -/
def bytesToNatLE (bs : List Nat) : Nat :=
  bs.foldr (fun b acc => b + 256 * acc) 0

/-- `struct.unpack('<I', data[off:off+4])[0]`; callers guarantee four
bytes are available. -/
def readLE32T (data : List Nat) (off : Nat) : Nat :=
  bytesToNatLE (extract data off 4)

/-- Guarded little-endian 32-bit read: `none` when fewer than four bytes
remain at `off`. -/
def readLE32O (data : List Nat) (off : Nat) : Option Nat :=
  if off + 4 ≤ data.length then some (readLE32T data off) else none

/-- `struct.pack('<I', n)` (the Python call raises for `n ≥ 2^32`; the
embedding truncates, and theorems that decode the field assume
`n < 2^32`). -/
def le4 (n : Nat) : List Nat :=
  [n % 256, n / 256 % 256, n / 65536 % 256, n / 16777216 % 256]

/-- Equal-length Python slice assignment
`nd[off : off+len(bs)] = bs` on a bytearray. -/
def writeAt (nd : List Nat) (off : Nat) (bs : List Nat) : List Nat :=
  nd.take off ++ bs ++ nd.drop (off + bs.length)

/-- Whether the byte pattern `pat` occurs in `data` at position `pos`
(`data[pos : pos+len(pat)] == pat`). -/
def matchAt (data pat : List Nat) (pos : Nat) : Bool :=
  decide (extract data pos pat.length = pat)

/-- Leftmost occurrence of `pat` in `data` at a position in
`[start, start + k)`; the auxiliary worker of `findPat`. -/
def findPatAux (data pat : List Nat) : Nat → Nat → Option Nat
  | 0, _ => none
  | k + 1, start =>
    if matchAt data pat start then some start
    else findPatAux data pat k (start + 1)

/-- Python `data.find(pat, start)` / `re.search` for a literal pattern:
the leftmost occurrence of `pat` at a position `≥ start`, if any. -/
def findPat (data pat : List Nat) (start : Nat) : Option Nat :=
  findPatAux data pat (data.length + 1 - start) start

/-- Start offset of block `i` inside the concatenation `bs.flatten`. -/
def blocksStart (bs : List (List Nat)) (i : Nat) : Nat :=
  ((bs.take i).map List.length).sum

/-- Python dict assignment `m[k] = v` on an association list that keeps
insertion order (the value is replaced in place when the key exists). -/
def dictInsert {α : Type} : List (Nat × α) → Nat → α → List (Nat × α)
  | [], k, v => [(k, v)]
  | (a, b) :: rest, k, v =>
    if a = k then (a, v) :: rest else (a, b) :: dictInsert rest k v

/-- Python dict lookup `m[k]` on the association-list encoding. -/
def dictGet {α : Type} : List (Nat × α) → Nat → Option α
  | [], _ => none
  | (a, b) :: rest, k => if a = k then some b else dictGet rest k

/-- Keys of the association-list dict, in insertion order. -/
def dictKeys {α : Type} (m : List (Nat × α)) : List Nat :=
  m.map Prod.fst

/-- Insert into a descending-sorted list of keys. -/
def insertDesc (x : Nat) : List Nat → List Nat
  | [] => [x]
  | y :: ys => if y ≤ x then x :: y :: ys else y :: insertDesc x ys

/-- Python `sorted(keys, reverse=True)`. -/
def sortDescNat (l : List Nat) : List Nat :=
  l.foldr insertDesc []

/-! ## Format A (ASUS packer), `src/asus/repacker/asus_repacker.py` -/

/-- The fixed 32-byte format-A signature searched for by
`detect_asus_packer_format` (line 33). -/
def asusSignaturePattern : List Nat :=
  [0, 0, 0, 0, 0x20, 0, 0, 0, 0xFF, 0xFF, 0, 0, 0xFF, 0xFF, 0, 0] ++
    List.replicate 16 0

/-- The fixed 16-byte validation constant checked at
`head + rel_offset - 0x10` (line 73, hex `00000000300009040000000000000000`). -/
def asusGuardPattern : List Nat :=
  [0, 0, 0, 0, 0x30, 0, 0x09, 0x04, 0, 0, 0, 0, 0, 0, 0, 0]

/-- Fallback 24-byte special pattern for the first image
(line 396, hex `FFFF0A00FFFF004000000000300009040000000000000000`). -/
def asusDefaultPattern1 : List Nat :=
  [0xFF, 0xFF, 0x0A, 0, 0xFF, 0xFF, 0, 0x40, 0, 0, 0, 0,
   0x30, 0, 0x09, 0x04, 0, 0, 0, 0, 0, 0, 0, 0]

/-- Fallback 24-byte special pattern for subsequent images
(line 398, hex `00FFFF0A00FFFF0200000000300009040000000000000000`). -/
def asusDefaultPattern2 : List Nat :=
  [0, 0xFF, 0xFF, 0x0A, 0, 0xFF, 0xFF, 0x02, 0, 0, 0, 0,
   0x30, 0, 0x09, 0x04, 0, 0, 0, 0, 0, 0, 0, 0]

/-- `detect_asus_image_type` (lines 131-150): classify a payload by its
first four bytes. -/
def detectAsusImageType (img : List Nat) : String :=
  match img with
  | b0 :: b1 :: b2 :: b3 :: _ =>
    if b0 = 0x42 ∧ b1 = 0x4D then "bmp"
    else if b0 = 0xFF ∧ b1 = 0xD8 ∧ b2 = 0xFF then "jpg"
    else if b0 = 0x89 ∧ b1 = 0x50 ∧ b2 = 0x4E ∧ b3 = 0x47 then "png"
    else if b0 = 0x47 ∧ b1 = 0x49 ∧ b2 = 0x46 ∧ b3 = 0x38 then "gif"
    else if (b0 = 0 ∧ b1 = 0 ∧ b2 = 1 ∧ b3 = 0) ∨
            (b0 = 0 ∧ b1 = 0 ∧ b2 = 2 ∧ b3 = 0) then "ico"
    else "img"
  | _ => "img"

/-- One decoded format-A image entry (the `image_info` dict of
`detect_asus_packer_format`, lines 93-103). -/
structure AsusImage where
  number : Nat
  type : String
  size : Nat
  offsetInPackage : Nat
  absoluteOffset : Nat
  data : List Nat
  metadataOffset : Nat
  specialPatternOffset : Nat
  specialPattern : List Nat
deriving DecidableEq

/-- One decoded format-A package (the `package_info` dict, lines 113-118). -/
structure AsusPackage where
  headerOffset : Nat
  headerEnd : Nat
  images : List AsusImage
  totalSize : Nat
deriving DecidableEq

/-- Why the format-A entry loop stopped.  `outOfFuel` is an artefact of
the fuel-indexed embedding and is proved unreachable for the fuel the
wrapper supplies. -/
inductive AsusStop
  | outOfFuel
  | truncated
  | sentinel
  | guardMismatch
  | outOfBounds
deriving DecidableEq

/-- The stop condition the entry loop of `detect_asus_packer_format`
would take at cursor `head` (`none` when it would decode an entry and
continue): insufficient bytes for the two fields (line 52), zero
size/offset sentinel (line 66), validation-guard mismatch (lines 70-75),
payload span out of bounds (line 81). -/
def asusStopCheck (data : List Nat) (head : Nat) : Option AsusStop :=
  if head + 8 > data.length then some .truncated
  else
    let isize := readLE32T data head
    let ioffs := readLE32T data (head + 4)
    if isize = 0 ∨ ioffs = 0 then some .sentinel
    else if 16 ≤ head + ioffs ∧ head + ioffs ≤ data.length ∧
            extract data (head + ioffs - 16) 16 ≠ asusGuardPattern then
      some .guardMismatch
    else if head + ioffs + isize > data.length then some .outOfBounds
    else none

/-- The 4-byte alignment padding of format A:
`(4 - size % 4) % 4` (lines 110 and 406). -/
def asusPad (n : Nat) : Nat :=
  (4 - n % 4) % 4

/-- The inner entry loop of `detect_asus_packer_format` (lines 51-111),
fuel-indexed.  Returns the decoded images, the final cursor, and the
reason the loop stopped. -/
def asusEntryLoopF : Nat → List Nat → Nat → List AsusImage →
    List AsusImage × Nat × AsusStop
  | 0, _, head, acc => (acc, head, .outOfFuel)
  | fuel + 1, data, head, acc =>
    if head + 8 > data.length then (acc, head, .truncated)
    else
      let isize := readLE32T data head
      let ioffs := readLE32T data (head + 4)
      if isize = 0 ∨ ioffs = 0 then (acc, head, .sentinel)
      else if 16 ≤ head + ioffs ∧ head + ioffs ≤ data.length ∧
              extract data (head + ioffs - 16) 16 ≠ asusGuardPattern then
        (acc, head, .guardMismatch)
      else if head + ioffs + isize > data.length then (acc, head, .outOfBounds)
      else
        let imgData := extract data (head + ioffs) isize
        let img : AsusImage :=
          { number := acc.length + 1
            type := detectAsusImageType imgData
            size := isize
            offsetInPackage := ioffs
            absoluteOffset := head + ioffs
            data := imgData
            metadataOffset := head
            specialPatternOffset := head + 8
            specialPattern := extract data (head + 8) 24 }
        asusEntryLoopF fuel data (head + 32 + isize + asusPad isize) (acc ++ [img])

/-- The entry loop started at cursor `head` with the fuel the outer scan
supplies (`data.length + 1`, proved sufficient). -/
def asusEntryLoop (data : List Nat) (head : Nat) :
    List AsusImage × Nat × AsusStop :=
  asusEntryLoopF (data.length + 1) data head []

/-- The outer signature-search loop of `detect_asus_packer_format`
(lines 38-122), fuel-indexed; `none` marks fuel exhaustion (proved
unreachable for the wrapper's fuel). -/
def detectAsusF : Nat → List Nat → Nat → List AsusPackage →
    Option (List AsusPackage)
  | 0, _, _, _ => none
  | fuel + 1, data, position, acc =>
    match findPat data asusSignaturePattern position with
    | none => some acc
    | some s =>
      let r := asusEntryLoop data (s + 32)
      let pkg : AsusPackage :=
        { headerOffset := s
          headerEnd := s + 32
          images := r.1
          totalSize := r.2.1 - s }
      detectAsusF fuel data r.2.1 (acc ++ [pkg])

/-- The format-A scan resumed from `pos`. -/
def detectAsusFrom (data : List Nat) (pos : Nat) : List AsusPackage :=
  (detectAsusF (data.length + 1) data pos []).getD []

/-- `detect_asus_packer_format` over a whole host buffer. -/
def detectAsus (data : List Nat) : List AsusPackage :=
  detectAsusFrom data 0

/-! ### Replacement-candidate naming and classification -/

/-- Decimal digits of a natural number as characters
(Python `str(n)` for the f-string `image_nr{number}`). -/
def natDecimalChars (n : Nat) : List Char :=
  Nat.toDigits 10 n

/-- Lowercase hexadecimal of `n` padded to eight digits
(Python `f"{n:08x}"`). -/
def hexPad8 (n : Nat) : List Char :=
  let ds := Nat.toDigits 16 n
  List.replicate (8 - ds.length) (Char.ofNat 48) ++ ds

/-- The candidate filename
`image_nr{number}_off0x{absolute_offset:08x}.{type}` built at
line 197 of the repacker. -/
def asusFilenameChars (img : AsusImage) : List Char :=
  "image_nr".toList ++ natDecimalChars img.number ++ "_off0x".toList ++
    hexPad8 img.absoluteOffset ++ Char.ofNat 46 :: img.type.toList

/-- ASCII decimal digit test (regex class `\d`). -/
def isDigitB (c : Char) : Bool :=
  decide (48 ≤ c.toNat ∧ c.toNat ≤ 57)

/-- Regex class `[0-9A-Fa-f]`. -/
def isHexB (c : Char) : Bool :=
  isDigitB c || decide (65 ≤ c.toNat ∧ c.toNat ≤ 70) ||
    decide (97 ≤ c.toNat ∧ c.toNat ≤ 102)

/-- Regex class `[a-zA-Z0-9]`. -/
def isAlnumB (c : Char) : Bool :=
  isDigitB c || decide (65 ≤ c.toNat ∧ c.toNat ≤ 90) ||
    decide (97 ≤ c.toNat ∧ c.toNat ≤ 122)

/-- Strip a literal prefix from a character list, or fail. -/
def stripPrefixChars : List Char → List Char → Option (List Char)
  | [], s => some s
  | _ :: _, [] => none
  | c :: p, d :: s => if c = d then stripPrefixChars p s else none

/-- The filename check
`re.match(r'^image_nr(\d+)_off0x([0-9A-Fa-f]+)\.[a-zA-Z0-9]+$', name)`
used at repacker line 202 and msi_repacker line 139.  Each quantified
regex class is followed by a literal outside that class, so maximal munch
is exact; Python `$` also accepts one trailing newline. -/
def imageNamePattern (s : List Char) : Bool :=
  match stripPrefixChars "image_nr".toList s with
  | none => false
  | some s1 =>
    let ds := s1.takeWhile isDigitB
    let s2 := s1.dropWhile isDigitB
    if ds.isEmpty then false
    else
      match stripPrefixChars "_off0x".toList s2 with
      | none => false
      | some s3 =>
        let hs := s3.takeWhile isHexB
        let s4 := s3.dropWhile isHexB
        if hs.isEmpty then false
        else
          match s4 with
          | [] => false
          | c :: rest =>
            if c = Char.ofNat 46 then
              let ext := rest.takeWhile isAlnumB
              let s5 := rest.dropWhile isAlnumB
              !ext.isEmpty && (s5.isEmpty || s5 = [Char.ofNat 10])
            else false

/-- `_validate_image_replacement` (lines 152-161): accept the candidate
only when its sniffed type equals the entry's detected type. -/
def validateImageReplacement (orig : AsusImage) (newData : List Nat) : Bool :=
  decide (detectAsusImageType newData = orig.type)

/-- Classification of one entry against its resolved candidate bytes,
following lines 196-233 of `rebuild_asus_packer_preserve_structure`:
filename-pattern check, then existence, then type validation, then
byte comparison. -/
inductive AsusClass
  | badName
  | missing
  | typeMismatch
  | unchanged
  | modified
deriving DecidableEq

/-- The Change Detector's per-entry rule (lines 196-233). -/
def classifyAsusCandidate (img : AsusImage) (c : Option (List Nat)) :
    AsusClass :=
  if imageNamePattern (asusFilenameChars img) = false then .badName
  else
    match c with
    | none => .missing
    | some cd =>
      if validateImageReplacement img cd = false then .typeMismatch
      else if cd = img.data then .unchanged
      else .modified

/-- The value stored in `modified_images[abs_offset]` (lines 224-230). -/
structure AsusModInfo where
  originalImage : AsusImage
  newData : List Nat
  packageIdx : Nat
deriving DecidableEq

/-- `size_diff = len(extracted_data) - original_size` of a modified
entry (line 228). -/
def asusSizeDiff (info : AsusModInfo) : Int :=
  (info.newData.length : Int) - (info.originalImage.size : Int)

/-- One step of the modified-image detection loop (lines 191-235):
inserts into the `modified_images` dict exactly when the entry is
classified `Modified`. -/
def detectStepAsus (pkgIdx : Nat) (cand : List Char → Option (List Nat))
    (m : List (Nat × AsusModInfo)) (img : AsusImage) :
    List (Nat × AsusModInfo) :=
  if imageNamePattern (asusFilenameChars img) = false then m
  else
    match cand (asusFilenameChars img) with
    | none => m
    | some cd =>
      if validateImageReplacement img cd = false then m
      else if cd = img.data then m
      else dictInsert m img.absoluteOffset
        { originalImage := img, newData := cd, packageIdx := pkgIdx }

/-- The full modified-image detection pass (lines 181-235): packages are
enumerated 1-based; a package whose extraction directory is absent is
skipped wholesale. -/
def detectModifiedAsus (packages : List AsusPackage) (dirok : Nat → Bool)
    (cands : Nat → List Char → Option (List Nat)) :
    List (Nat × AsusModInfo) :=
  (packages.enumFrom 1).foldl
    (fun m kp =>
      if dirok kp.1 = false then m
      else kp.2.images.foldl (detectStepAsus kp.1 (cands kp.1)) m)
    []

/-- `total_size_change = sum(info['size_diff'] ...)` (line 258). -/
def asusTotalSizeChange (m : List (Nat × AsusModInfo)) : Int :=
  (m.map (fun kv => asusSizeDiff kv.2)).sum

/-- One step of `_direct_replace_images` (lines 280-301): skip the entry
when the candidate length differs from the original size or the type
re-validation fails, otherwise splice the bytes in place. -/
def directReplaceStep (m : List (Nat × AsusModInfo)) (nd : List Nat)
    (off : Nat) : List Nat :=
  match dictGet m off with
  | none => nd
  | some info =>
    if info.newData.length ≠ info.originalImage.size then nd
    else if validateImageReplacement info.originalImage info.newData = false
      then nd
    else writeAt nd off info.newData

/-- `_direct_replace_images` (lines 269-301): copy the host buffer and
process the modified offsets in descending order. -/
def directReplaceImages (data : List Nat) (m : List (Nat × AsusModInfo)) :
    List Nat :=
  (sortDescNat (dictKeys m)).foldl (directReplaceStep m) data

/-- Payload selected for an entry during structural rebuild
(lines 359-370): the replacement bytes when the entry is in the
modified dict, else the original payload. -/
def asusPayloadOf (m : List (Nat × AsusModInfo)) (img : AsusImage) :
    List Nat :=
  match dictGet m img.absoluteOffset with
  | some info => info.newData
  | none => img.data

/-- The 24-byte special pattern emitted for an entry (lines 381-400):
the preserved pattern when it has length 24, else a re-extraction from
the host buffer, else the per-position default constant. -/
def asusSpecialPatternOf (data : List Nat) (img : AsusImage) : List Nat :=
  if img.specialPattern.length = 24 then img.specialPattern
  else if img.metadataOffset + 32 ≤ data.length then
    extract data (img.metadataOffset + 8) 24
  else if img.number = 1 then asusDefaultPattern1
  else asusDefaultPattern2

/-- The bytes emitted for one entry by `_structure_preserving_rebuild`
(lines 356-409): 4-byte size, 4-byte constant `0x20` relative offset,
24-byte special pattern, payload, zero padding to a 4-byte boundary. -/
def asusEntryEmit (data : List Nat) (m : List (Nat × AsusModInfo))
    (img : AsusImage) : List Nat :=
  let payload := asusPayloadOf m img
  le4 payload.length ++ le4 0x20 ++ asusSpecialPatternOf data img ++
    payload ++ List.replicate (asusPad payload.length) 0

/-- Stable ordered insert for `sorted(images, key=lambda x: x['number'])`. -/
def insertImgByNumber (x : AsusImage) : List AsusImage → List AsusImage
  | [] => [x]
  | y :: ys =>
    if x.number ≤ y.number then x :: y :: ys else y :: insertImgByNumber x ys

/-- Python's stable `sorted(..., key=lambda x: x['number'])` (line 354). -/
def sortImagesByNumber (l : List AsusImage) : List AsusImage :=
  l.foldr insertImgByNumber []

/-- The interleaved metadata/payload region emitted for a package's
entries, in the given order. -/
def asusEntriesBytes (data : List Nat) (m : List (Nat × AsusModInfo))
    (images : List AsusImage) : List Nat :=
  (images.map (asusEntryEmit data m)).flatten

/-- The bytes `_structure_preserving_rebuild` emits for one package
(lines 334-409): the gap before the package, the verbatim 32-byte
header, then the entries sorted by number. -/
def asusPackageEmit (data : List Nat) (m : List (Nat × AsusModInfo))
    (pos : Nat) (pkg : AsusPackage) : List Nat :=
  (if pos < pkg.headerOffset then extract data pos (pkg.headerOffset - pos)
   else []) ++
    extract data pkg.headerOffset (pkg.headerEnd - pkg.headerOffset) ++
    asusEntriesBytes data m (sortImagesByNumber pkg.images)

/-- The package fold of `_structure_preserving_rebuild` plus the
trailing-bytes copy (lines 330-424), with `pos` the running
`current_pos`. -/
def asusPackagesEmit (data : List Nat) (m : List (Nat × AsusModInfo)) :
    Nat → List AsusPackage → List Nat
  | pos, [] => if pos < data.length then extract data pos (data.length - pos)
               else []
  | pos, pkg :: rest =>
    asusPackageEmit data m pos pkg ++
      asusPackagesEmit data m (pkg.headerOffset + pkg.totalSize) rest

/-- `_structure_preserving_rebuild` (lines 326-449): the full rebuilt
buffer. -/
def structurePreservingRebuild (data : List Nat) (packages : List AsusPackage)
    (m : List (Nat × AsusModInfo)) : List Nat :=
  asusPackagesEmit data m 0 packages

/-- The strategy decision of `rebuild_asus_packer_preserve_structure`
(lines 242-267). -/
inductive AsusStrategy
  | copyOriginal
  | directReplace
  | structuralRebuild
deriving DecidableEq

/-- Lines 242-267: copy when nothing was modified, direct replace when
the summed size delta is zero, structural rebuild otherwise. -/
def asusRebuildStrategy (m : List (Nat × AsusModInfo)) : AsusStrategy :=
  if m.isEmpty then .copyOriginal
  else if asusTotalSizeChange m = 0 then .directReplace
  else .structuralRebuild

/-- `rebuild_asus_packer_preserve_structure` (lines 163-267) as a
buffer-to-buffer pipeline: `none` when no package is found (the function
returns `False`), otherwise the bytes written to the output file. -/
def rebuildAsusPreserveStructure (data : List Nat) (dirok : Nat → Bool)
    (cands : Nat → List Char → Option (List Nat)) : Option (List Nat) :=
  let pkgs := detectAsus data
  if pkgs.isEmpty then none
  else
    let m := detectModifiedAsus pkgs dirok cands
    match asusRebuildStrategy m with
    | .copyOriginal => some data
    | .directReplace => some (directReplaceImages data m)
    | .structuralRebuild => some (structurePreservingRebuild data pkgs m)

/-! ### Rebuilt-buffer position bookkeeping (for the layout claims) -/

/-- Offset of entry `i`'s metadata block inside `asusEntriesBytes`. -/
def asusEntryStart (data : List Nat) (m : List (Nat × AsusModInfo))
    (images : List AsusImage) (i : Nat) : Nat :=
  blocksStart (images.map (asusEntryEmit data m)) i

/-- A throwaway image used only as the default of `List.getD`. -/
def defaultAsusImage : AsusImage :=
  { number := 0, type := "img", size := 0, offsetInPackage := 0
    absoluteOffset := 0, data := [], metadataOffset := 0
    specialPatternOffset := 0, specialPattern := [] }

/-- Offset of entry `i`'s payload inside `asusEntriesBytes` (the
payload follows the 32-byte metadata block). -/
def asusPayloadStart (data : List Nat) (m : List (Nat × AsusModInfo))
    (images : List AsusImage) (i : Nat) : Nat :=
  asusEntryStart data m images i + 32

/-- Offset just past entry `i`'s payload inside `asusEntriesBytes`. -/
def asusPayloadEnd (data : List Nat) (m : List (Nat × AsusModInfo))
    (images : List AsusImage) (i : Nat) : Nat :=
  asusPayloadStart data m images i +
    (asusPayloadOf m (images.getD i defaultAsusImage)).length

/-- Offset just past entry `i`'s padded payload inside
`asusEntriesBytes`. -/
def asusPaddedEnd (data : List Nat) (m : List (Nat × AsusModInfo))
    (images : List AsusImage) (i : Nat) : Nat :=
  asusPayloadEnd data m images i +
    asusPad (asusPayloadOf m (images.getD i defaultAsusImage)).length

/-! ## Format B (MSI packer), `src/msi/repacker/msi_repacker.py` and
`src/msi/analyzer/msi_analyzer.py` -/

/-- `self.MSI_SIGNATURE = b'$MsI$'` (five bytes; repacker line 32,
analyzer line 43). -/
def msiSignature : List Nat :=
  [36, 77, 115, 73, 36]

/-- `l[i] = v` on a bytearray (indices used by the code are in range). -/
def listSet (l : List Nat) (i v : Nat) : List Nat :=
  l.set i v

/-- Python bytearray slice assignment `l[a:b] = vs` (the spliced-in list
may have a different length than the slice, changing the buffer's
length, exactly as in Python). -/
def sliceAssign (l : List Nat) (a b : Nat) (vs : List Nat) : List Nat :=
  l.take a ++ vs ++ l.drop b

/-- `struct.pack_into('<I', l, off, v)`. -/
def packIntoLE4 (l : List Nat) (off v : Nat) : List Nat :=
  l.take off ++ le4 v ++ l.drop (off + 4)

/-- `_create_msi_header` (repacker lines 560-576).  Note the 5-byte
signature assigned to the 4-byte slice `header[0:4]` grows the
bytearray to 13 bytes, and `header[4] = 0` then overwrites the trailing
`$` of the signature. -/
def msiCreateHeader (imageNumber imageSize : Nat) : List Nat :=
  let h0 := List.replicate 12 0
  let h1 := sliceAssign h0 0 4 msiSignature
  let h2 := listSet h1 4 0
  let h3 := listSet h2 5 0
  let h4 := listSet h3 6 (imageNumber % 256)
  let h5 := listSet h4 7 0
  packIntoLE4 h5 8 imageSize

/-- The attribute values set on `MSIImageRepacker` by `__init__`
(repacker lines 30-39); Python instance-attribute lookup on any other
name raises `AttributeError`. -/
inductive MsiAttrVal
  | bytesV (bs : List Nat)
  | natV (n : Nat)
  | strListV (l : List String)
  | dictV
deriving DecidableEq

/-- The instance attribute table created by `MSIImageRepacker.__init__`. -/
def msiRepackerAttrs : List (String × MsiAttrVal) :=
  [("MSI_SIGNATURE", .bytesV msiSignature),
   ("HEADER_SIZE", .natV 12),
   ("supported_extensions",
     .strListV [".bin", ".jpg", ".jpeg", ".png", ".bmp", ".ico"]),
   ("repack_results", .dictV)]

/-- Python attribute lookup `getattr(self, name)` on the repacker
instance; `none` models `AttributeError`. -/
def msiGetAttr (name : String) : Option MsiAttrVal :=
  (msiRepackerAttrs.find? (fun kv => kv.1 == name)).map Prod.snd

/-- Exceptions the embedded Python code can raise. -/
inductive PyErr
  | attributeError
  | typeError
deriving DecidableEq

/-- One entry of the `structure_info` dict consumed by
`_create_msi_header_from_structure` (repacker lines 113-124). -/
structure MsiStructEntry where
  index : Nat
  offset : Nat
  imageSize : Nat
  imageType : String
  sector : Nat
  layer : Nat
  imageNumber : Nat
  reserved : Nat
  filename : String
deriving DecidableEq

/-- `_create_msi_header_from_structure` (repacker lines 435-452).  The
body reads `self.msi_signature`, an attribute `__init__` never defines
(only `MSI_SIGNATURE` exists), so the lookup raises. -/
def msiCreateHeaderFromStructure (info : MsiStructEntry) (imageSize : Nat) :
    Except PyErr (List Nat) :=
  match msiGetAttr "msi_signature" with
  | none => .error .attributeError
  | some (.bytesV sig) =>
    let h0 := List.replicate 12 0
    let h1 := sliceAssign h0 0 4 sig
    let h2 := listSet h1 4 (info.sector % 256)
    let h3 := listSet h2 5 (info.layer % 256)
    let h4 := listSet h3 6 (info.imageNumber % 256)
    let h5 := listSet h4 7 (info.reserved % 256)
    .ok (packIntoLE4 h5 8 imageSize)
  | some _ => .error .typeError

/-- The `structure_info` value (`{'entries': [...]}` when present). -/
structure MsiStructInfo where
  entries : List MsiStructEntry
deriving DecidableEq

/-- The enumerated-files loop of `_create_msi_binary_with_structure`
(repacker lines 385-416); an exception anywhere aborts the whole
construction (the surrounding `try` returns `False`). -/
def msiCreateBinaryGo (sinfo : Option MsiStructInfo) :
    Nat → List (List Char × List Nat) → List Nat → Except PyErr (List Nat)
  | _, [], out => .ok out
  | i, f :: rest, out =>
    let headerRes : Except PyErr (List Nat) :=
      match sinfo with
      | some si =>
        if h : i < si.entries.length then
          msiCreateHeaderFromStructure (si.entries.get ⟨i, h⟩) f.2.length
        else .ok (msiCreateHeader i f.2.length)
      | none => .ok (msiCreateHeader i f.2.length)
    match headerRes with
    | .error e => .error e
    | .ok hd => msiCreateBinaryGo sinfo (i + 1) rest (out ++ hd ++ f.2)

/-- `_create_msi_binary_with_structure` (repacker lines 380-433) over
already-read `(filename, bytes)` pairs. -/
def msiCreateBinaryWithStructure (files : List (List Char × List Nat))
    (sinfo : Option MsiStructInfo) : Except PyErr (List Nat) :=
  msiCreateBinaryGo sinfo 0 files []

/-- Character-list prefix test. -/
def startsWithChars : List Char → List Char → Bool
  | [], _ => true
  | _ :: _, [] => false
  | c :: p, d :: s => c == d && startsWithChars p s

/-- Python `str.endswith`. -/
def endsWithChars (p s : List Char) : Bool :=
  startsWithChars p.reverse s.reverse

/-- The `image_nr` file filter of `_repack_with_structure_preservation`
(repacker lines 133-145): prefix `image_nr`, not a `.txt` file, and the
full filename pattern. -/
def msiMatchingFiles (listing : List (List Char × List Nat)) :
    List (List Char × List Nat) :=
  listing.filter (fun f =>
    startsWithChars "image_nr".toList f.1 &&
      !endsWithChars ".txt".toList f.1 && imageNamePattern f.1)

/-- Digits-to-number accumulation (Python `int(digits)`). -/
def digitsToNat (ds : List Char) : Nat :=
  ds.foldl (fun a c => a * 10 + (c.toNat - 48)) 0

/-- `_extract_image_number` (repacker lines 302-315): the number after
`image_nr` when the name matches `image_nr(\d+)_`, else 0. -/
def extractImageNumber (s : List Char) : Nat :=
  match stripPrefixChars "image_nr".toList s with
  | none => 0
  | some s1 =>
    let ds := s1.takeWhile isDigitB
    let s2 := s1.dropWhile isDigitB
    if ds.isEmpty then 0
    else
      match s2 with
      | c :: _ => if c = Char.ofNat 95 then digitsToNat ds else 0
      | [] => 0

/-- Stable ordered insert for the filename sort at repacker line 148. -/
def insertFileByNum (x : List Char × List Nat) :
    List (List Char × List Nat) → List (List Char × List Nat)
  | [] => [x]
  | y :: ys =>
    if extractImageNumber x.1 ≤ extractImageNumber y.1 then x :: y :: ys
    else y :: insertFileByNum x ys

/-- Python's stable `image_files.sort(key=...)` (repacker line 148). -/
def sortFilesByNum (l : List (List Char × List Nat)) :
    List (List Char × List Nat) :=
  l.foldr insertFileByNum []

/-- Failure modes of the structure-preservation repack. -/
inductive MsiRepackErr
  | needAtLeastTwo
  | headerFailed (e : PyErr)
deriving DecidableEq

/-- `_repack_with_structure_preservation` (repacker lines 101-170) over
an already-read directory listing: filter by the filename pattern,
require at least two images, then build the binary. -/
def msiRepackWithStructurePreservation
    (listing : List (List Char × List Nat)) (sinfo : Option MsiStructInfo) :
    Except MsiRepackErr (List Nat) :=
  let files := msiMatchingFiles listing
  if files.length < 2 then .error .needAtLeastTwo
  else
    match msiCreateBinaryWithStructure (sortFilesByNum files) sinfo with
    | .ok out => .ok out
    | .error e => .error (.headerFailed e)

/-- One entry of an MSI analysis result (`msi_entries`), as consumed by
the repacker's change detection (analyzer lines 189-197). -/
structure MsiEntry where
  index : Nat
  offset : Nat
  imageDataSize : Nat
  imageType : String
  sector : Nat
  layer : Nat
  imageNumber : Nat
  reserved : Nat
deriving DecidableEq

/-- Classification outcome of `_detect_modified_images`
(repacker lines 684-738); the code performs no type validation. -/
inductive MsiClass
  | skippedBounds
  | missing
  | unchanged
  | modified
deriving DecidableEq

/-- The per-entry rule of `_detect_modified_images` (repacker
lines 684-738): compare the candidate bytes with
`original_data[offset : offset + image_data_size]`. -/
def msiClassifyCandidate (data : List Nat) (e : MsiEntry)
    (c : Option (List Nat)) : MsiClass :=
  if e.offset + e.imageDataSize > data.length then .skippedBounds
  else
    match c with
    | none => .missing
    | some cd =>
      if cd = extract data e.offset e.imageDataSize then .unchanged
      else .modified

/-- The value stored in `modified_images[entry_index]`
(repacker lines 722-728). -/
structure MsiModInfo where
  originalEntry : MsiEntry
  newData : List Nat
deriving DecidableEq

/-- `_detect_modified_images` (repacker lines 664-745): build the
modified-images dict keyed by entry index. -/
def msiDetectModified (entries : List MsiEntry) (data : List Nat)
    (cands : Nat → Nat → Option (List Nat)) : List (Nat × MsiModInfo) :=
  entries.foldl
    (fun m e =>
      if e.offset + e.imageDataSize > data.length then m
      else
        match cands e.index e.offset with
        | none => m
        | some cd =>
          if cd = extract data e.offset e.imageDataSize then m
          else dictInsert m e.index { originalEntry := e, newData := cd })
    []

/-- Uppercase a lowercase hex digit character. -/
def charUpper (c : Char) : Char :=
  if 97 ≤ c.toNat then Char.ofNat (c.toNat - 32) else c

/-- Python `f"{n:X}"` (uppercase hexadecimal, no padding). -/
def hexUpperChars (n : Nat) : List Char :=
  (Nat.toDigits 16 n).map charUpper

/-- The `structure_info` entry built from an analysis entry
(repacker lines 113-124), including the
`image_nr{index}_off0x{offset:X}` filename. -/
def msiStructEntryOfAnalysis (e : MsiEntry) : MsiStructEntry :=
  { index := e.index
    offset := e.offset
    imageSize := e.imageDataSize
    imageType := e.imageType
    sector := e.sector
    layer := e.layer
    imageNumber := e.imageNumber
    reserved := e.reserved
    filename := String.mk ("image_nr".toList ++ natDecimalChars e.index ++
      "_off0x".toList ++ hexUpperChars e.offset) }

/-- The structure-preserving branch of `repack_from_directory` with
change detection enabled (repacker lines 61-80): copy the original
buffer when nothing was modified, else repack from the directory
listing using the analysis-derived structure info. -/
def msiRepackPipeline (data : List Nat) (analysisEntries : List MsiEntry)
    (cands : Nat → Nat → Option (List Nat))
    (listing : List (List Char × List Nat)) : Except MsiRepackErr (List Nat) :=
  let m := msiDetectModified analysisEntries data cands
  if m.isEmpty then .ok data
  else
    msiRepackWithStructurePreservation listing
      (some { entries := analysisEntries.map msiStructEntryOfAnalysis })

/-! ### The MSI analyzer's entry scanner -/

/-- The parsed 12-byte MSI header (`_parse_msi_header`, analyzer
lines 215-230). -/
structure MsiHeaderRec where
  signature : List Nat
  sector : Nat
  layer : Nat
  imageNumber : Nat
  reserved : Nat
  imageSize : Nat
deriving DecidableEq

/-- `_parse_msi_header` (analyzer lines 215-230); `none` models the
`ValueError` raised when fewer than 12 bytes remain. -/
def msiParseHeader (data : List Nat) (off : Nat) : Option MsiHeaderRec :=
  if off + 12 > data.length then none
  else
    some
      { signature := extract data off 4
        sector := (extract data off 12).getD 4 0
        layer := (extract data off 12).getD 5 0
        imageNumber := (extract data off 12).getD 6 0
        reserved := (extract data off 12).getD 7 0
        imageSize := bytesToNatLE (extract (extract data off 12) 8 4) }

/-- Uppercase hex dump of a byte list (Python `bytes.hex().upper()`). -/
def bytesHexUpper (bs : List Nat) : String :=
  String.mk ((bs.map (fun b => [(Nat.toDigits 16 (b / 16 % 16)).map charUpper,
    (Nat.toDigits 16 (b % 16)).map charUpper])).flatten.flatten)

/-- One decoded MSI scan entry (the dict built at analyzer
lines 189-197). -/
structure MsiScanEntry where
  index : Nat
  offset : Nat
  header : MsiHeaderRec
  imageDataOffset : Nat
  imageDataSize : Nat
  imageType : String
  imagePreview : String
deriving DecidableEq

/-- The ordered magic-byte table of the analyzer (`magic_patterns`,
analyzer lines 47-56); Python dicts iterate in insertion order. -/
def msiMagicPatterns : List (List Nat × String) :=
  [([36, 77, 115, 73, 36], "MSI Packer Header"),
   ([0xFF, 0xD8, 0xFF], "JPEG Image Start"),
   ([0x89, 0x50, 0x4E, 0x47], "PNG Image Start"),
   ([66, 77], "BMP Image Start"),
   ([0, 0, 1, 0], "ICO Image Start"),
   ([82, 73, 70, 70], "RIFF Container"),
   ([77, 90], "PE/DOS Executable"),
   ([95, 70, 86, 72], "UEFI Firmware Volume")]

/-- First magic pattern that is a prefix of the data, if any. -/
def msiFirstMagic (img : List Nat) : List (List Nat × String) → Option String
  | [] => none
  | (pat, desc) :: rest =>
    if startsWithChars (pat.map Char.ofNat) (img.map Char.ofNat) then some desc
    else msiFirstMagic img rest

/-- `_detect_image_type` (analyzer lines 232-247). -/
def msiDetectImageType (img : List Nat) : String :=
  if img.isEmpty then "Empty"
  else
    match msiFirstMagic img msiMagicPatterns with
    | some desc => desc
    | none =>
      if 4 ≤ img.length then
        "Unknown (시작: " ++ bytesHexUpper (img.take 4) ++ ")"
      else "Unknown"

/-- `_find_msi_entries` (analyzer lines 171-213), fuel-indexed; `none`
marks fuel exhaustion.  Note the guard compares the 4-byte slice
`data[offset:offset+4]` with the 5-byte signature `b'$MsI$'`. -/
def msiFindEntriesF : Nat → List Nat → Nat → List MsiScanEntry →
    Option (List MsiScanEntry)
  | 0, _, _, _ => none
  | fuel + 1, data, offset, acc =>
    if offset + 12 < data.length then
      if extract data offset 4 = msiSignature then
        match msiParseHeader data offset with
        | none => msiFindEntriesF fuel data (offset + 1) acc
        | some hd =>
          if offset + 12 + hd.imageSize ≤ data.length then
            let imgData := extract data (offset + 12) hd.imageSize
            let e : MsiScanEntry :=
              { index := acc.length
                offset := offset
                header := hd
                imageDataOffset := offset + 12
                imageDataSize := hd.imageSize
                imageType := msiDetectImageType imgData
                imagePreview := bytesHexUpper (imgData.take 32) }
            msiFindEntriesF fuel data (offset + 12 + hd.imageSize) (acc ++ [e])
          else msiFindEntriesF fuel data (offset + 1) acc
      else msiFindEntriesF fuel data (offset + 1) acc
    else some acc

/-- `_find_msi_entries` over a whole buffer. -/
def msiFindEntries (data : List Nat) : List MsiScanEntry :=
  (msiFindEntriesF (data.length + 1) data 0 []).getD []

/-! ## BMP sniffing, `src/asus/analyzer/asus_analyzer.py`
(`analyze_embedded_files`, lines 203-225) -/

/-- One BMP record appended by the sniffing loop. -/
structure BmpRec where
  start : Nat
  size : Nat
  endOff : Nat
deriving DecidableEq

/-- The ASCII bytes `b'BM'`. -/
def bmpPattern : List Nat :=
  [66, 77]

/-- The BMP while-loop of `analyze_embedded_files` (analyzer
lines 203-225), fuel-indexed: find each `BM`, read the little-endian
size at `+2` when six bytes are available, and record the span when
`100 ≤ size ≤ 50 MiB` and it fits in the buffer. -/
def analyzeBmpF : Nat → List Nat → Nat → List BmpRec → Option (List BmpRec)
  | 0, _, _, _ => none
  | fuel + 1, data, start, acc =>
    match findPat data bmpPattern start with
    | none => some acc
    | some pos =>
      let acc2 :=
        if pos + 6 ≤ data.length then
          let size := readLE32T data (pos + 2)
          if 100 ≤ size ∧ size ≤ 52428800 ∧ pos + size ≤ data.length then
            acc ++ [{ start := pos, size := size, endOff := pos + size }]
          else acc
        else acc
      analyzeBmpF fuel data (pos + 1) acc2

/-- The BMP records collected over a whole buffer. -/
def analyzeEmbeddedBmp (data : List Nat) : List BmpRec :=
  (analyzeBmpF (data.length + 1) data 0 []).getD []

/-! ## Auxiliary definitions used by the theorems -/

/-- Decidable check that the image numbers are nondecreasing (the order
in which `detect_asus_packer_format` assigns them). -/
def numbersSortedB : List AsusImage → Bool
  | [] => true
  | [_] => true
  | a :: b :: t => decide (a.number ≤ b.number) && numbersSortedB (b :: t)

/-- Keep only the modified entries whose replacement has the original
length (the entries `_direct_replace_images` does not skip on size). -/
def modKept (v : AsusModInfo) : Bool :=
  decide (v.newData.length = v.originalImage.size)

/-- The blocks `_create_msi_binary_with_structure` emits when no
structure info is available (`_create_msi_header` per file), starting at
file index `i`. -/
def msiBasicBlocksFrom : Nat → List (List Char × List Nat) → List (List Nat)
  | _, [] => []
  | i, f :: rest =>
    (msiCreateHeader i f.2.length ++ f.2) :: msiBasicBlocksFrom (i + 1) rest

/-- Start offset of entry `i` inside the no-structure-info MSI output. -/
def msiBlockStart (files : List (List Char × List Nat)) (i : Nat) : Nat :=
  blocksStart (msiBasicBlocksFrom 0 files) i

/-- A throwaway package used only as the default of `List.getD`. -/
def defaultAsusPackage : AsusPackage :=
  { headerOffset := 0, headerEnd := 0, images := [], totalSize := 0 }

/-! ## Concrete example data -/

/-- A 104-byte format-A host buffer: the 32-byte signature followed by
two well-formed entries with 4-byte payloads at absolute offsets
0x40 and 0x64. -/
def asusBuf : List Nat :=
  asusSignaturePattern ++
    ([4, 0, 0, 0] ++ [32, 0, 0, 0] ++ List.replicate 8 0xAA ++
      asusGuardPattern ++ [1, 2, 3, 4]) ++
    ([4, 0, 0, 0] ++ [32, 0, 0, 0] ++ List.replicate 8 0xBB ++
      asusGuardPattern ++ [9, 8, 7, 6])

/-- Just the 32-byte format-A signature: a container whose entry region
is empty because the buffer ends at the cursor. -/
def asusBufSig : List Nat :=
  asusSignaturePattern

/-- Candidate filename of the first entry of `asusBuf`. -/
def asusName1 : List Char :=
  "image_nr1_off0x00000040.img".toList

/-- Candidate filename of the second entry of `asusBuf`. -/
def asusName2 : List Char :=
  "image_nr2_off0x00000064.img".toList

/-- Candidates for `asusBuf` with individual size deltas `+1` and `-1`
(sum zero). -/
def asusCandsC1 : Nat → List Char → Option (List Nat) := fun k name =>
  if k = 1 ∧ name = asusName1 then some [1, 2, 3, 4, 5]
  else if k = 1 ∧ name = asusName2 then some [9, 8, 7] else none

/-- A candidate for the first entry of `asusBuf` whose sniffed type
(`bmp`) differs from the entry's detected type (`img`). -/
def asusCandsC4 : Nat → List Char → Option (List Nat) := fun k name =>
  if k = 1 ∧ name = asusName1 then some [0x42, 0x4D, 0, 0] else none

/-- The first package decoded from `asusBuf`. -/
def asusPkgC : AsusPackage :=
  (detectAsus asusBuf).getD 0 defaultAsusPackage

/-- The images of the first package decoded from `asusBuf`. -/
def asusImagesC : List AsusImage :=
  asusPkgC.images

/-- The modified-images dict detected for `asusBuf` under the
`asusCandsC1` candidates (deltas `+1` and `-1`). -/
def asusModC1 : List (Nat × AsusModInfo) :=
  detectModifiedAsus (detectAsus asusBuf) (fun _ => true) asusCandsC1

/-- A concrete format-B host buffer whose first four bytes are the PNG
magic. -/
def msiDataC : List Nat :=
  [0x89, 0x50, 0x4E, 0x47, 1, 2, 3, 4]

/-- A concrete analysis entry for `msiDataC`. -/
def msiEntryC : MsiEntry :=
  { index := 0, offset := 0, imageDataSize := 4, imageType := "PNG Image Start"
    sector := 0, layer := 0, imageNumber := 0, reserved := 0 }

/-- A two-file directory listing whose names match the
`image_nr..._off0x...` pattern. -/
def msiListingC : List (List Char × List Nat) :=
  [("image_nr0_off0x0.png".toList, [1]),
   ("image_nr1_off0x4.png".toList, [2])]

/-- A directory listing with a single matching image file. -/
def msiListingOne : List (List Char × List Nat) :=
  [("image_nr0_off0x0.png".toList, [1]),
   ("msi_structure_info.txt".toList, [2])]

/-- A JPEG-magic candidate for `msiEntryC` (different sniffed type and
different bytes than the original payload). -/
def msiCandsC4 : Nat → Nat → Option (List Nat) := fun i off =>
  if i = 0 ∧ off = 0 then some [0xFF, 0xD8, 0xFF, 0xE0] else none

/-- The unchanged-candidate function for `msiEntryC` (resolves to the
original payload bytes). -/
def msiCandsU : Nat → Nat → Option (List Nat) := fun i off =>
  if i = 0 ∧ off = 0 then some (extract msiDataC 0 4) else none

/-- A concrete structure-info entry (for the header-builder claim). -/
def msiStructEntryC : MsiStructEntry :=
  msiStructEntryOfAnalysis msiEntryC

/-! ## Helper lemmas: slices of concatenations -/

/-- A slice wholly inside the left part of a concatenation. -/
theorem extract_append_inner (x y : List Nat) (a n : Nat)
    (h : a + n ≤ x.length) : extract (x ++ y) a n = extract x a n := by
  unfold extract
  rw [List.drop_append_of_le_length (by omega)]
  rw [List.take_append_of_le_length]
  simp
  omega

/-- A slice that starts past the left part of a concatenation. -/
theorem extract_append_shift (x y : List Nat) (a n : Nat) :
    extract (x ++ y) (x.length + a) n = extract y a n := by
  unfold extract
  rw [List.drop_append a]

/-- Extracting a whole list. -/
theorem extract_all (x : List Nat) : extract x 0 x.length = x := by
  unfold extract
  simp

/-- The length of a slice. -/
theorem extract_length (data : List Nat) (i n : Nat) :
    (extract data i n).length = min n (data.length - i) := by
  unfold extract
  simp

/-- `blocksStart` at a successor index. -/
theorem blocksStart_succ (bs : List (List Nat)) (i : Nat)
    (h : i < bs.length) :
    blocksStart bs (i + 1) = blocksStart bs i + (bs.getD i []).length := by
  induction bs generalizing i with
  | nil => simp at h
  | cons b t ih =>
    cases i with
    | zero => simp [blocksStart]
    | succ j =>
      have hj : j < t.length := by simpa using h
      have := ih j hj
      simp only [blocksStart, List.take_succ_cons, List.map_cons, List.sum_cons,
        List.getD_cons_succ] at *
      omega

/-- A slice inside block `i` of a concatenation of blocks. -/
theorem flatten_extract (bs : List (List Nat)) (i a n : Nat)
    (hi : i < bs.length) (hn : a + n ≤ (bs.getD i []).length) :
    extract bs.flatten (blocksStart bs i + a) n = extract (bs.getD i []) a n := by
  induction bs generalizing i with
  | nil => simp at hi
  | cons b t ih =>
    cases i with
    | zero =>
      simp only [List.getD_cons_zero] at hn ⊢
      simp only [blocksStart, List.take_zero, List.map_nil, List.sum_nil,
        Nat.zero_add, List.flatten_cons]
      exact extract_append_inner b t.flatten a n hn
    | succ j =>
      have hj : j < t.length := by simpa using hi
      simp only [List.getD_cons_succ] at hn ⊢
      have hstep : blocksStart (b :: t) (j + 1) = b.length + blocksStart t j := by
        simp only [blocksStart, List.take_succ_cons, List.map_cons, List.sum_cons]
      rw [hstep, List.flatten_cons, Nat.add_assoc, extract_append_shift]
      exact ih j hj hn

/-! ## Helper lemmas: pattern search -/

/-- A successful match fits inside the buffer. -/
theorem matchAt_le (data pat : List Nat) (pos : Nat) (hp : pat ≠ [])
    (h : matchAt data pat pos = true) : pos + pat.length ≤ data.length := by
  unfold matchAt at h
  have h' := of_decide_eq_true h
  have hlen := congrArg List.length h'
  rw [extract_length] at hlen
  have hpos : 0 < pat.length := List.length_pos.mpr hp
  omega

/-- No match can start where the pattern would overrun the buffer. -/
theorem matchAt_beyond (data pat : List Nat) (pos : Nat) (hp : pat ≠ [])
    (h : data.length < pos + pat.length) : matchAt data pat pos = false := by
  cases hmb : matchAt data pat pos with
  | false => rfl
  | true => exact absurd (matchAt_le data pat pos hp hmb) (by omega)

/-- Soundness and minimality of the bounded search. -/
theorem findPatAux_some (data pat : List Nat) :
    ∀ k start p, findPatAux data pat k start = some p →
      start ≤ p ∧ matchAt data pat p = true ∧
        ∀ q, start ≤ q → q < p → matchAt data pat q = false := by
  intro k
  induction k with
  | zero => intro start p h; simp [findPatAux] at h
  | succ k ih =>
    intro start p h
    by_cases hm : matchAt data pat start = true
    · simp only [findPatAux, hm, if_true, Option.some.injEq] at h
      subst h
      exact ⟨Nat.le_refl _, hm, fun q hq1 hq2 => absurd hq1 (by omega)⟩
    · have hm' : matchAt data pat start = false := by
        simpa using hm
      simp only [findPatAux, hm', Bool.false_eq_true, if_false] at h
      obtain ⟨h1, h2, h3⟩ := ih (start + 1) p h
      refine ⟨by omega, h2, fun q hq1 hq2 => ?_⟩
      rcases Nat.eq_or_lt_of_le hq1 with heq | hlt
      · exact heq ▸ hm'
      · exact h3 q hlt hq2

/-- Completeness of the bounded search. -/
theorem findPatAux_none (data pat : List Nat) :
    ∀ k start, findPatAux data pat k start = none →
      ∀ q, start ≤ q → q < start + k → matchAt data pat q = false := by
  intro k
  induction k with
  | zero => intro start _ q hq1 hq2; omega
  | succ k ih =>
    intro start h q hq1 hq2
    by_cases hm : matchAt data pat start = true
    · simp only [findPatAux, hm, if_true] at h
      exact Option.noConfusion h
    · have hm' : matchAt data pat start = false := by
        simpa using hm
      simp only [findPatAux, hm', Bool.false_eq_true, if_false] at h
      rcases Nat.eq_or_lt_of_le hq1 with heq | hlt
      · exact heq ▸ hm'
      · exact ih (start + 1) h q hlt (by omega)

/-- `findPat` soundness: the result is the leftmost match at or after
`start`. -/
theorem findPat_some (data pat : List Nat) (start p : Nat)
    (h : findPat data pat start = some p) :
    start ≤ p ∧ matchAt data pat p = true ∧
      ∀ q, start ≤ q → q < p → matchAt data pat q = false :=
  findPatAux_some data pat _ start p h

/-- `findPat` completeness: a `none` result means no match at or after
`start`. -/
theorem findPat_none (data pat : List Nat) (start : Nat) (hp : pat ≠ [])
    (h : findPat data pat start = none) :
    ∀ q, start ≤ q → matchAt data pat q = false := by
  intro q hq
  by_cases hcase : q < start + (data.length + 1 - start)
  · exact findPatAux_none data pat _ start h q hq hcase
  · have hpos : 0 < pat.length := List.length_pos.mpr hp
    exact matchAt_beyond data pat q hp (by omega)

/-! ## Helper lemmas: the format-A entry loop -/

/-- With sufficient fuel the entry loop never exhausts its fuel, and the
reason it stopped is exactly the first stop condition holding at the
final cursor. -/
theorem asusEntryLoopF_spec (data : List Nat) :
    ∀ fuel head acc, data.length - head < fuel →
      (asusEntryLoopF fuel data head acc).2.2 ≠ AsusStop.outOfFuel ∧
        asusStopCheck data (asusEntryLoopF fuel data head acc).2.1 =
          some (asusEntryLoopF fuel data head acc).2.2 := by
  intro fuel
  induction fuel with
  | zero => intro head acc h; omega
  | succ fuel ih =>
    intro head acc h
    by_cases c1 : head + 8 > data.length
    · constructor <;> simp [asusEntryLoopF, asusStopCheck, c1]
    · by_cases c2 : readLE32T data head = 0 ∨ readLE32T data (head + 4) = 0
      · constructor <;> simp [asusEntryLoopF, asusStopCheck, c1, c2]
      · by_cases c3 : 16 ≤ head + readLE32T data (head + 4) ∧
            head + readLE32T data (head + 4) ≤ data.length ∧
            extract data (head + readLE32T data (head + 4) - 16) 16 ≠
              asusGuardPattern
        · constructor <;> simp [asusEntryLoopF, asusStopCheck, c1, c2, c3]
        · by_cases c4 : head + readLE32T data (head + 4) + readLE32T data head >
              data.length
          · constructor <;> simp [asusEntryLoopF, asusStopCheck, c1, c2, c3, c4]
          · have hsz : readLE32T data head ≠ 0 := fun hc => c2 (Or.inl hc)
            have hrec : data.length -
                (head + 32 + readLE32T data head + asusPad (readLE32T data head))
                  < fuel := by omega
            have := ih (head + 32 + readLE32T data head +
              asusPad (readLE32T data head)) (acc ++
                [{ number := acc.length + 1
                   type := detectAsusImageType
                     (extract data (head + readLE32T data (head + 4))
                       (readLE32T data head))
                   size := readLE32T data head
                   offsetInPackage := readLE32T data (head + 4)
                   absoluteOffset := head + readLE32T data (head + 4)
                   data := extract data (head + readLE32T data (head + 4))
                     (readLE32T data head)
                   metadataOffset := head
                   specialPatternOffset := head + 8
                   specialPattern := extract data (head + 8) 24 }]) hrec
            simpa [asusEntryLoopF, c1, c2, c3, c4] using this

/-- The entry-loop cursor never moves backwards. -/
theorem asusEntryLoopF_head_le (data : List Nat) :
    ∀ fuel head acc, head ≤ (asusEntryLoopF fuel data head acc).2.1 := by
  intro fuel
  induction fuel with
  | zero => intro head acc; simp [asusEntryLoopF]
  | succ fuel ih =>
    intro head acc
    by_cases c1 : head + 8 > data.length
    · simp [asusEntryLoopF, c1]
    · by_cases c2 : readLE32T data head = 0 ∨ readLE32T data (head + 4) = 0
      · simp [asusEntryLoopF, c1, c2]
      · by_cases c3 : 16 ≤ head + readLE32T data (head + 4) ∧
            head + readLE32T data (head + 4) ≤ data.length ∧
            extract data (head + readLE32T data (head + 4) - 16) 16 ≠
              asusGuardPattern
        · simp [asusEntryLoopF, c1, c2, c3]
        · by_cases c4 : head + readLE32T data (head + 4) + readLE32T data head >
              data.length
          · simp [asusEntryLoopF, c1, c2, c3, c4]
          · simp only [asusEntryLoopF, c1, c2, c3, c4, if_false]
            exact le_trans (by omega) (ih _ _)

/-- Every image the entry loop appends records the sniffed type of its
own payload bytes. -/
theorem asusEntryLoopF_types (data : List Nat) :
    ∀ fuel head acc img,
      (∀ i ∈ acc, i.type = detectAsusImageType i.data) →
      img ∈ (asusEntryLoopF fuel data head acc).1 →
      img.type = detectAsusImageType img.data := by
  intro fuel
  induction fuel with
  | zero =>
    intro head acc img hacc hm
    simp only [asusEntryLoopF] at hm
    exact hacc img hm
  | succ fuel ih =>
    intro head acc img hacc hm
    by_cases c1 : head + 8 > data.length
    · simp only [asusEntryLoopF, c1, if_pos] at hm
      exact hacc img hm
    · by_cases c2 : readLE32T data head = 0 ∨ readLE32T data (head + 4) = 0
      · simp [asusEntryLoopF, c1, c2] at hm
        exact hacc img hm
      · by_cases c3 : 16 ≤ head + readLE32T data (head + 4) ∧
            head + readLE32T data (head + 4) ≤ data.length ∧
            extract data (head + readLE32T data (head + 4) - 16) 16 ≠
              asusGuardPattern
        · simp [asusEntryLoopF, c1, c2, c3.1, c3.2.1, c3.2.2] at hm
          exact hacc img hm
        · by_cases c4 : head + readLE32T data (head + 4) + readLE32T data head >
              data.length
          · simp [asusEntryLoopF, c1, c2, c3, c4] at hm
            exact hacc img hm
          · simp only [asusEntryLoopF, c1, c2, c3, c4, if_false, if_neg] at hm
            have hm2 : img ∈ (asusEntryLoopF fuel data
                (head + 32 + readLE32T data head + asusPad (readLE32T data head))
                (acc ++
                  [{ number := acc.length + 1
                     type := detectAsusImageType
                       (extract data (head + readLE32T data (head + 4))
                         (readLE32T data head))
                     size := readLE32T data head
                     offsetInPackage := readLE32T data (head + 4)
                     absoluteOffset := head + readLE32T data (head + 4)
                     data := extract data (head + readLE32T data (head + 4))
                       (readLE32T data head)
                     metadataOffset := head
                     specialPatternOffset := head + 8
                     specialPattern := extract data (head + 8) 24 }])).1 := by
              simpa [asusEntryLoopF, c1, c2, c3, c4] using hm
            refine ih _ _ img ?_ hm2
            intro i hi
            rcases List.mem_append.mp hi with hi | hi
            · exact hacc i hi
            · simp at hi
              subst hi
              rfl

/-- The entry loop numbers its images 1-based in order of decoding. -/
theorem asusEntryLoopF_numbers (data : List Nat) :
    ∀ fuel head acc,
      acc.map AsusImage.number = List.range' 1 acc.length →
      ((asusEntryLoopF fuel data head acc).1).map AsusImage.number =
        List.range' 1 (asusEntryLoopF fuel data head acc).1.length := by
  intro fuel
  induction fuel with
  | zero => intro head acc hacc; simpa [asusEntryLoopF] using hacc
  | succ fuel ih =>
    intro head acc hacc
    by_cases c1 : head + 8 > data.length
    · simpa [asusEntryLoopF, c1] using hacc
    · by_cases c2 : readLE32T data head = 0 ∨ readLE32T data (head + 4) = 0
      · simpa [asusEntryLoopF, c1, c2] using hacc
      · by_cases c3 : 16 ≤ head + readLE32T data (head + 4) ∧
            head + readLE32T data (head + 4) ≤ data.length ∧
            extract data (head + readLE32T data (head + 4) - 16) 16 ≠
              asusGuardPattern
        · simpa [asusEntryLoopF, c1, c2, c3] using hacc
        · by_cases c4 : head + readLE32T data (head + 4) + readLE32T data head >
              data.length
          · simpa [asusEntryLoopF, c1, c2, c3, c4] using hacc
          · simp only [asusEntryLoopF, c1, c2, c3, c4, if_false, if_neg]
            refine ih _ _ ?_
            rw [List.map_append, hacc]
            simp [List.range'_1_concat, Nat.add_comm]

/-! ## Helper lemmas: the format-A outer scan loop -/

/-- A 32-byte signature match constrains the cursor after the entry
loop: it moved at least 32 bytes past the match. -/
theorem asus_match_bounds (data : List Nat) (pos s : Nat)
    (h : findPat data asusSignaturePattern pos = some s) :
    pos ≤ s ∧ s + 32 ≤ data.length := by
  obtain ⟨h1, h2, _⟩ := findPat_some data asusSignaturePattern pos s h
  refine ⟨h1, ?_⟩
  have := matchAt_le data asusSignaturePattern s (by decide) h2
  simpa [asusSignaturePattern] using this

/-- With sufficient fuel the outer scan loop returns a value. -/
theorem detectAsusF_total (data : List Nat) :
    ∀ fuel pos acc, data.length - pos < fuel →
      (detectAsusF fuel data pos acc).isSome := by
  intro fuel
  induction fuel with
  | zero => intro pos acc h; omega
  | succ fuel ih =>
    intro pos acc h
    cases hf : findPat data asusSignaturePattern pos with
    | none => simp [detectAsusF, hf]
    | some s =>
      obtain ⟨hs1, hs2⟩ := asus_match_bounds data pos s hf
      have hhead : s + 32 ≤ (asusEntryLoop data (s + 32)).2.1 :=
        asusEntryLoopF_head_le data _ _ _
      simp only [detectAsusF, hf]
      exact ih _ _ (by omega)

/-- The outer scan loop only appends to its accumulator. -/
theorem detectAsusF_acc (data : List Nat) :
    ∀ fuel pos acc, detectAsusF fuel data pos acc =
      Option.map (acc ++ ·) (detectAsusF fuel data pos []) := by
  intro fuel
  induction fuel with
  | zero => intro pos acc; simp [detectAsusF]
  | succ fuel ih =>
    intro pos acc
    cases hf : findPat data asusSignaturePattern pos with
    | none => simp [detectAsusF, hf]
    | some s =>
      simp only [detectAsusF, hf]
      rw [ih _ (acc ++ [_]), ih _ ([] ++ [_])]
      cases detectAsusF fuel data (asusEntryLoop data (s + 32)).2.1 [] with
      | none => rfl
      | some l => simp

/-- The outer scan loop is fuel-irrelevant once the fuel is sufficient. -/
theorem detectAsusF_fuel (data : List Nat) :
    ∀ f1 f2 pos acc, data.length - pos < f1 → data.length - pos < f2 →
      detectAsusF f1 data pos acc = detectAsusF f2 data pos acc := by
  intro f1
  induction f1 with
  | zero => intro f2 pos acc h1 h2; omega
  | succ f1 ih =>
    intro f2 pos acc h1 h2
    cases f2 with
    | zero => omega
    | succ f2 =>
      cases hf : findPat data asusSignaturePattern pos with
      | none => simp [detectAsusF, hf]
      | some s =>
        obtain ⟨hs1, hs2⟩ := asus_match_bounds data pos s hf
        have hhead : s + 32 ≤ (asusEntryLoop data (s + 32)).2.1 :=
          asusEntryLoopF_head_le data _ _ _
        simp only [detectAsusF, hf]
        exact ih f2 _ _ (by omega) (by omega)

/-- Unfolding equation of the scan at a position with no further
signature match. -/
theorem detectAsusFrom_none (data : List Nat) (pos : Nat)
    (h : findPat data asusSignaturePattern pos = none) :
    detectAsusFrom data pos = [] := by
  unfold detectAsusFrom
  simp [detectAsusF, h]

/-- Unfolding equation of the scan at a matched signature: the package
built from the entry loop is kept, and scanning continues at the entry
loop's final cursor. -/
theorem detectAsusFrom_some (data : List Nat) (pos s : Nat)
    (h : findPat data asusSignaturePattern pos = some s) :
    detectAsusFrom data pos =
      { headerOffset := s, headerEnd := s + 32
        images := (asusEntryLoop data (s + 32)).1
        totalSize := (asusEntryLoop data (s + 32)).2.1 - s } ::
        detectAsusFrom data (asusEntryLoop data (s + 32)).2.1 := by
  obtain ⟨hs1, hs2⟩ := asus_match_bounds data pos s h
  have hhead : s + 32 ≤ (asusEntryLoop data (s + 32)).2.1 :=
    asusEntryLoopF_head_le data _ _ _
  have hstep : detectAsusF (data.length + 1) data pos [] =
      detectAsusF data.length data (asusEntryLoop data (s + 32)).2.1
        [{ headerOffset := s, headerEnd := s + 32
           images := (asusEntryLoop data (s + 32)).1
           totalSize := (asusEntryLoop data (s + 32)).2.1 - s }] := by
    simp only [detectAsusF, h, List.nil_append]
  unfold detectAsusFrom
  rw [hstep, detectAsusF_acc data data.length _ _,
    detectAsusF_fuel data data.length (data.length + 1) _ [] (by omega) (by omega)]
  cases ht : detectAsusF (data.length + 1) data
      (asusEntryLoop data (s + 32)).2.1 [] with
  | none =>
    exfalso
    have := detectAsusF_total data (data.length + 1)
      (asusEntryLoop data (s + 32)).2.1 [] (by omega)
    rw [ht] at this
    simp at this
  | some l => simp

/-- Every package the scan produces is built from the entry loop at its
signature match. -/
theorem detectAsusF_pkgs (data : List Nat) (P : AsusPackage → Prop)
    (hP : ∀ s, P { headerOffset := s, headerEnd := s + 32
                   images := (asusEntryLoop data (s + 32)).1
                   totalSize := (asusEntryLoop data (s + 32)).2.1 - s }) :
    ∀ fuel pos acc l, (∀ p ∈ acc, P p) →
      detectAsusF fuel data pos acc = some l → ∀ p ∈ l, P p := by
  intro fuel
  induction fuel with
  | zero => intro pos acc l hacc h; simp [detectAsusF] at h
  | succ fuel ih =>
    intro pos acc l hacc h
    cases hf : findPat data asusSignaturePattern pos with
    | none =>
      simp only [detectAsusF, hf, Option.some.injEq] at h
      exact h ▸ hacc
    | some s =>
      simp only [detectAsusF, hf] at h
      refine ih _ _ l ?_ h
      intro p hp
      rcases List.mem_append.mp hp with hp | hp
      · exact hacc p hp
      · simp at hp
        exact hp ▸ hP s

/-- Every package of a format-A scan numbers its images `1, 2, ...` in
decoding order. -/
theorem detectAsus_numbers (data : List Nat) (pkg : AsusPackage)
    (h : pkg ∈ detectAsus data) :
    pkg.images.map AsusImage.number = List.range' 1 pkg.images.length := by
  have key : ∀ p ∈ (detectAsusF (data.length + 1) data 0 []).getD [],
      p.images.map AsusImage.number = List.range' 1 p.images.length := by
    cases ht : detectAsusF (data.length + 1) data 0 [] with
    | none => simp
    | some l =>
      simp only [Option.getD_some]
      refine detectAsusF_pkgs data _ ?_ _ _ _ _ (by simp) ht
      intro s
      exact asusEntryLoopF_numbers data _ _ [] (by simp)
  exact key pkg h

/-- Every image of a format-A scan records the sniffed type of its own
payload bytes. -/
theorem detectAsus_types (data : List Nat) (pkg : AsusPackage)
    (h : pkg ∈ detectAsus data) :
    ∀ img ∈ pkg.images, img.type = detectAsusImageType img.data := by
  have key : ∀ p ∈ (detectAsusF (data.length + 1) data 0 []).getD [],
      ∀ img ∈ p.images, img.type = detectAsusImageType img.data := by
    cases ht : detectAsusF (data.length + 1) data 0 [] with
    | none => simp
    | some l =>
      simp only [Option.getD_some]
      refine detectAsusF_pkgs data _ ?_ _ _ _ _ (by simp) ht
      intro s img hi
      exact asusEntryLoopF_types data _ _ [] img (by simp) hi
  exact key pkg h

/-! ## Helper lemmas: the MSI entry scanner -/

/-- A 4-byte slice can never equal the 5-byte signature `b'$MsI$'`. -/
theorem msi_sig_never (data : List Nat) (off : Nat) :
    extract data off 4 ≠ msiSignature := by
  intro h
  have hl := congrArg List.length h
  rw [extract_length] at hl
  simp [msiSignature] at hl
  omega

/-- The MSI entry scan never appends to its accumulator. -/
theorem msiFindEntriesF_acc (data : List Nat) :
    ∀ fuel off acc, msiFindEntriesF fuel data off acc = none ∨
      msiFindEntriesF fuel data off acc = some acc := by
  intro fuel
  induction fuel with
  | zero => intro off acc; left; rfl
  | succ fuel ih =>
    intro off acc
    by_cases hc : off + 12 < data.length
    · have hs := msi_sig_never data off
      simp only [msiFindEntriesF, hc, if_true, hs, if_false, if_neg]
      exact ih (off + 1) acc
    · right
      simp [msiFindEntriesF, hc]

/-- The format-B entry scanner finds no entry in any buffer: its guard
compares the 4-byte slice at the cursor with the 5-byte signature. -/
theorem msiFindEntries_nil (data : List Nat) : msiFindEntries data = [] := by
  unfold msiFindEntries
  rcases msiFindEntriesF_acc data (data.length + 1) 0 [] with h | h <;> simp [h]

/-! ## Claim C5 -/

/-- C5 (counterexample): a buffer holding just the 32-byte format-A
signature makes the entry loop terminate at cursor 32 because fewer than
8 bytes remain — none of the three conditions named by the claim (the
size/offset fields cannot even be read) — while the container with its
zero decoded entries is still kept. -/
theorem claim_C5_counterexample :
    (asusEntryLoop asusBufSig 32).2.2 = AsusStop.truncated ∧
      (asusEntryLoop asusBufSig 32).1 = [] ∧
      (asusEntryLoop asusBufSig 32).2.1 = 32 ∧
      readLE32O asusBufSig 32 = none ∧
      readLE32O asusBufSig 36 = none ∧
      AsusStop.truncated ≠ AsusStop.sentinel ∧
      AsusStop.truncated ≠ AsusStop.guardMismatch ∧
      AsusStop.truncated ≠ AsusStop.outOfBounds ∧
      detectAsus asusBufSig =
        [{ headerOffset := 0, headerEnd := 32, images := [], totalSize := 32 }] := by
  decide

/-- C5 (amended): the format-A entry loop terminates without error
exactly when the first of FOUR conditions holds at the final cursor —
fewer than 8 bytes remain for the size/offset fields, a zero
size/offset sentinel, a validation-guard mismatch, or an out-of-bounds
payload span (`asusStopCheck` encodes the four conditions in the
code's order) — and in every case the previously decoded entries are
kept in the emitted package while scanning for further containers
continues from the final cursor. -/
theorem claim_C5_amended :
    (∀ data head,
      (asusEntryLoop data head).2.2 ≠ AsusStop.outOfFuel ∧
        asusStopCheck data (asusEntryLoop data head).2.1 =
          some (asusEntryLoop data head).2.2) ∧
      (∀ data pos, findPat data asusSignaturePattern pos = none →
        detectAsusFrom data pos = []) ∧
      (∀ data pos s, findPat data asusSignaturePattern pos = some s →
        detectAsusFrom data pos =
          { headerOffset := s, headerEnd := s + 32
            images := (asusEntryLoop data (s + 32)).1
            totalSize := (asusEntryLoop data (s + 32)).2.1 - s } ::
            detectAsusFrom data (asusEntryLoop data (s + 32)).2.1) := by
  refine ⟨fun data head => asusEntryLoopF_spec data _ head [] (by omega),
    detectAsusFrom_none, detectAsusFrom_some⟩

/-- C5 (witness): the amended claim applied to the concrete two-entry
buffer, at a position past the container and at the signature match. -/
theorem claim_C5_witness :
    detectAsusFrom asusBuf 104 = [] ∧
      detectAsusFrom asusBuf 0 =
        { headerOffset := 0, headerEnd := 32
          images := (asusEntryLoop asusBuf 32).1
          totalSize := (asusEntryLoop asusBuf 32).2.1 - 0 } ::
          detectAsusFrom asusBuf (asusEntryLoop asusBuf 32).2.1 :=
  ⟨claim_C5_amended.2.1 asusBuf 104 (by decide),
    claim_C5_amended.2.2 asusBuf 0 0 (by decide)⟩

/-! ## Claim C8 -/

/-- C8 (counterexample): the first decoded entry of the concrete
format-A container records `number = 1`, not 0, and the
replacement-candidate filename built from it is `image_nr1_...`; so the
recorded index is 1-based, contradicting the claim. -/
theorem claim_C8_counterexample :
    asusImagesC.map AsusImage.number = [1, 2] ∧
      (asusImagesC.getD 0 defaultAsusImage).number = 1 ∧
      (1 : Nat) ≠ 0 ∧
      asusFilenameChars (asusImagesC.getD 0 defaultAsusImage) =
        "image_nr1_off0x00000040.img".toList ∧
      asusPkgC ∈ detectAsus asusBuf := by
  decide

/-- C8 (amended): format A records a 1-based sequence number — package
images are numbered `1, 2, ...` in decoding order, and that number is
what the `image_nr<n>_...` filename uses — while the format-B scanner
as written never decodes any entry at all (its guard compares a 4-byte
slice against the 5-byte signature), so no format-B entry index is ever
recorded. -/
theorem claim_C8_amended :
    (∀ data pkg, pkg ∈ detectAsus data →
      pkg.images.map AsusImage.number = List.range' 1 pkg.images.length) ∧
      ∀ data, msiFindEntries data = [] :=
  ⟨detectAsus_numbers, msiFindEntries_nil⟩

/-- C8 (witness): the amended claim applied to the concrete two-entry
container and a concrete buffer containing the 5-byte signature. -/
theorem claim_C8_witness :
    asusPkgC.images.map AsusImage.number = List.range' 1 asusPkgC.images.length ∧
      msiFindEntries [36, 77, 115, 73, 36, 0, 0, 0, 0, 0, 0, 0, 0, 0] = [] :=
  ⟨claim_C8_amended.1 asusBuf asusPkgC (by decide), claim_C8_amended.2 _⟩

/-! ## Claim C9 -/

/-- The structure-based header builder always raises: it reads the
instance attribute `msi_signature`, which `__init__` never defines. -/
theorem msiCreateHeaderFromStructure_err (info : MsiStructEntry)
    (imageSize : Nat) :
    msiCreateHeaderFromStructure info imageSize = .error .attributeError := by
  have hattr : msiGetAttr "msi_signature" = none := by decide
  simp [msiCreateHeaderFromStructure, hattr]

/-- C9 (confirmed): the format-B header builder that uses preserved
structure information raises `AttributeError` on every input, so every
structure-preserving format-B binary creation with at least one
original structure entry (and at least one file to emit) fails instead
of producing an output buffer. -/
theorem claim_C9_confirmed :
    (∀ info imageSize,
      msiCreateHeaderFromStructure info imageSize = .error .attributeError) ∧
      ∀ files sinfo, files ≠ [] → sinfo.entries ≠ [] →
        msiCreateBinaryWithStructure files (some sinfo) =
          .error .attributeError := by
  refine ⟨msiCreateHeaderFromStructure_err, ?_⟩
  intro files sinfo hf he
  cases files with
  | nil => exact absurd rfl hf
  | cons f rest =>
    have hi : 0 < sinfo.entries.length := List.length_pos.mpr he
    simp only [msiCreateBinaryWithStructure, msiCreateBinaryGo]
    rw [dif_pos hi, msiCreateHeaderFromStructure_err]

/-- C9 (witness): the failure at a concrete file list and a concrete
one-entry structure info. -/
theorem claim_C9_witness :
    msiCreateBinaryWithStructure [("image_nr0_off0x0.png".toList, [1])]
      (some { entries := [msiStructEntryC] }) = .error .attributeError :=
  claim_C9_confirmed.2 _ _ (by decide) (by decide)

/-! ## Claim C10 -/

/-- C10 (confirmed): whenever fewer than two supplied files match the
`image_nr<number>_off0x<hex>.<extension>` pattern, the format-B
structure-preservation repack fails with the too-few-images error and
never returns an output buffer. -/
theorem claim_C10_confirmed :
    ∀ listing sinfo, (msiMatchingFiles listing).length < 2 →
      msiRepackWithStructurePreservation listing sinfo =
        .error .needAtLeastTwo ∧
        ∀ out, msiRepackWithStructurePreservation listing sinfo ≠ .ok out := by
  intro listing sinfo h
  have h1 : msiRepackWithStructurePreservation listing sinfo =
      .error .needAtLeastTwo := by
    simp [msiRepackWithStructurePreservation, h]
  refine ⟨h1, fun out hc => ?_⟩
  rw [h1] at hc
  exact Except.noConfusion hc

/-- C10 (witness): the failure at a concrete listing with exactly one
matching image file. -/
theorem claim_C10_witness :
    (msiMatchingFiles msiListingOne).length < 2 ∧
      msiRepackWithStructurePreservation msiListingOne
        (some { entries := [msiStructEntryC] }) = .error .needAtLeastTwo :=
  ⟨by decide, (claim_C10_confirmed msiListingOne _ (by decide)).1⟩

/-! ## Helper lemmas: the BMP sniffing loop -/

/-- With sufficient fuel the BMP loop returns a value. -/
theorem analyzeBmpF_total (data : List Nat) :
    ∀ fuel start acc, data.length - start < fuel →
      (analyzeBmpF fuel data start acc).isSome := by
  intro fuel
  induction fuel with
  | zero => intro start acc h; omega
  | succ fuel ih =>
    intro start acc h
    cases hf : findPat data bmpPattern start with
    | none => simp [analyzeBmpF, hf]
    | some pos =>
      obtain ⟨h1, h2, _⟩ := findPat_some data bmpPattern start pos hf
      have hb := matchAt_le data bmpPattern pos (by decide) h2
      simp only [bmpPattern, List.length_cons, List.length_nil] at hb
      simp only [analyzeBmpF, hf]
      exact ih (pos + 1) _ (by omega)

/-- Membership characterization of the BMP loop from an arbitrary start
position. -/
theorem analyzeBmpF_spec (data : List Nat) :
    ∀ fuel start acc l, data.length - start < fuel →
      analyzeBmpF fuel data start acc = some l →
      ∀ r : BmpRec, r ∈ l ↔ r ∈ acc ∨
        (start ≤ r.start ∧ extract data r.start 2 = bmpPattern ∧
          r.start + 6 ≤ data.length ∧ r.size = readLE32T data (r.start + 2) ∧
          100 ≤ r.size ∧ r.size ≤ 52428800 ∧
          r.start + r.size ≤ data.length ∧ r.endOff = r.start + r.size) := by
  intro fuel
  induction fuel with
  | zero => intro start acc l h; omega
  | succ fuel ih =>
    intro start acc l h hl r
    cases hf : findPat data bmpPattern start with
    | none =>
      simp only [analyzeBmpF, hf, Option.some.injEq] at hl
      subst hl
      constructor
      · exact Or.inl
      · rintro (hr | ⟨hs, hbm, -⟩)
        · exact hr
        · exfalso
          have := findPat_none data bmpPattern start (by decide) hf r.start hs
          rw [show matchAt data bmpPattern r.start =
            decide (extract data r.start 2 = bmpPattern) from rfl] at this
          simp [hbm] at this
      | some pos =>
      obtain ⟨hp1, hp2, hpmin⟩ := findPat_some data bmpPattern start pos hf
      have hb := matchAt_le data bmpPattern pos (by decide) hp2
      simp only [bmpPattern, List.length_cons, List.length_nil] at hb
      have hbm : extract data pos 2 = bmpPattern := by
        have := of_decide_eq_true hp2
        simpa using this
      simp only [analyzeBmpF, hf] at hl
      have hrec := ih (pos + 1) _ l (by omega) hl r
      rw [hrec]
      have hsplit : ∀ q, start ≤ q → q < pos →
          extract data q 2 ≠ bmpPattern := by
        intro q hq1 hq2 hc
        have := hpmin q hq1 hq2
        rw [show matchAt data bmpPattern q =
          decide (extract data q 2 = bmpPattern) from rfl] at this
        simp [hc] at this
      by_cases h6 : pos + 6 ≤ data.length
      · by_cases hC : 100 ≤ readLE32T data (pos + 2) ∧
            readLE32T data (pos + 2) ≤ 52428800 ∧
            pos + readLE32T data (pos + 2) ≤ data.length
        · simp only [h6, hC, and_self, if_true, if_pos]
          constructor
          · rintro (hacc | ⟨hs, rest⟩)
            · rcases List.mem_append.mp hacc with hacc | hacc
              · exact Or.inl hacc
              · simp at hacc
                subst hacc
                exact Or.inr ⟨hp1, hbm, h6, rfl, hC.1, hC.2.1, hC.2.2, rfl⟩
            · exact Or.inr ⟨by omega, rest⟩
          · rintro (hacc | ⟨hs, hbm2, h6', hsz, h100, hM, hfit, hend⟩)
            · exact Or.inl (List.mem_append.mpr (Or.inl hacc))
            · rcases Nat.lt_trichotomy r.start pos with hlt | heq | hgt
              · exact absurd hbm2 (hsplit r.start hs hlt)
              · left
                refine List.mem_append.mpr (Or.inr ?_)
                simp only [List.mem_singleton]
                cases r with
                | mk rs rz re =>
                  simp only at heq hsz hend ⊢
                  subst heq
                  subst hsz
                  subst hend
                  rfl
              · exact Or.inr ⟨by omega, hbm2, h6', hsz, h100, hM, hfit, hend⟩
        · simp only [h6, hC, if_true, if_false, if_neg, and_true]
          constructor
          · rintro (hacc | ⟨hs, rest⟩)
            · exact Or.inl hacc
            · exact Or.inr ⟨by omega, rest⟩
          · rintro (hacc | ⟨hs, hbm2, h6', hsz, h100, hM, hfit, hend⟩)
            · exact Or.inl hacc
            · rcases Nat.lt_trichotomy r.start pos with hlt | heq | hgt
              · exact absurd hbm2 (hsplit r.start hs hlt)
              · exfalso
                subst heq
                rw [hsz] at h100 hM hfit
                exact hC ⟨h100, hM, hfit⟩
              · exact Or.inr ⟨by omega, hbm2, h6', hsz, h100, hM, hfit, hend⟩
      · simp only [h6, if_false, if_neg]
        constructor
        · rintro (hacc | ⟨hs, rest⟩)
          · exact Or.inl hacc
          · exact Or.inr ⟨by omega, rest⟩
        · rintro (hacc | ⟨hs, hbm2, h6', hsz, h100, hM, hfit, hend⟩)
          · exact Or.inl hacc
          · rcases Nat.lt_trichotomy r.start pos with hlt | heq | hgt
            · exact absurd hbm2 (hsplit r.start hs hlt)
            · exact absurd (heq ▸ h6') h6
            · exact Or.inr ⟨by omega, hbm2, h6', hsz, h100, hM, hfit, hend⟩

/-! ## Claim C7 -/

/-- C7 (confirmed): a span is recorded as a BMP image by the sniffing
loop exactly when it starts with ASCII `BM`, the little-endian 32-bit
size field at `offset + 2` is readable and satisfies
`100 ≤ size ≤ 50 MiB`, and `offset + size` fits in the buffer; in
particular a `BM` whose declared size points past the buffer end is
never classified as BMP. -/
theorem claim_C7_confirmed :
    ∀ (data : List Nat) (r : BmpRec), r ∈ analyzeEmbeddedBmp data ↔
      (extract data r.start 2 = bmpPattern ∧
        readLE32O data (r.start + 2) = some r.size ∧
        100 ≤ r.size ∧ r.size ≤ 52428800 ∧
        r.start + r.size ≤ data.length ∧ r.endOff = r.start + r.size) := by
  intro data r
  unfold analyzeEmbeddedBmp
  cases ht : analyzeBmpF (data.length + 1) data 0 [] with
  | none =>
    exfalso
    have := analyzeBmpF_total data (data.length + 1) 0 [] (by omega)
    rw [ht] at this
    simp at this
  | some l =>
    simp only [Option.getD_some]
    rw [analyzeBmpF_spec data (data.length + 1) 0 [] l (by omega) ht r]
    constructor
    · rintro (h | ⟨-, hbm, h6, hsz, h100, hM, hfit, hend⟩)
      · simp at h
      · refine ⟨hbm, ?_, h100, hM, hfit, hend⟩
        unfold readLE32O
        rw [if_pos (by omega), hsz]
    · rintro ⟨hbm, hro, h100, hM, hfit, hend⟩
      right
      unfold readLE32O at hro
      by_cases hcc : r.start + 2 + 4 ≤ data.length
      · rw [if_pos hcc] at hro
        exact ⟨Nat.zero_le _, hbm, by omega, (Option.some.inj hro).symm,
          h100, hM, hfit, hend⟩
      · rw [if_neg hcc] at hro
        exact Option.noConfusion hro

/-! ## Helper lemmas: folds that change nothing -/

/-- A fold whose step fixes every accumulator is the identity. -/
theorem list_foldl_fixed {α β : Type} (f : β → α → β) :
    ∀ (l : List α) (b : β), (∀ x ∈ l, ∀ acc, f acc x = acc) →
      l.foldl f b = b := by
  intro l
  induction l with
  | nil => intro b _; rfl
  | cons x t ih =>
    intro b h
    rw [List.foldl_cons, h x (by simp)]
    exact ih b (fun y hy acc => h y (by simp [hy]) acc)

/-- An entry not classified `Modified` contributes nothing to the
modified-images dict. -/
theorem detectStepAsus_skip (pkgIdx : Nat) (cand : List Char → Option (List Nat))
    (img : AsusImage)
    (h : classifyAsusCandidate img (cand (asusFilenameChars img)) ≠
      AsusClass.modified) :
    ∀ m, detectStepAsus pkgIdx cand m img = m := by
  intro m
  by_cases p1 : imageNamePattern (asusFilenameChars img) = false
  · simp [detectStepAsus, p1]
  · cases hc : cand (asusFilenameChars img) with
    | none => simp [detectStepAsus, p1, hc]
    | some cd =>
      by_cases p2 : validateImageReplacement img cd = false
      · simp [detectStepAsus, p1, hc, p2]
      · by_cases p3 : cd = img.data
        · simp [detectStepAsus, p1, hc, p2, p3]
        · exfalso
          exact h (by simp [classifyAsusCandidate, p1, hc, p2, p3])

/-- When no entry is classified `Modified`, the format-A detection pass
returns the empty dict. -/
theorem detectModifiedAsus_nil (packages : List AsusPackage)
    (dirok : Nat → Bool) (cands : Nat → List Char → Option (List Nat))
    (h : ∀ kp ∈ packages.enumFrom 1, ∀ img ∈ kp.2.images,
      classifyAsusCandidate img (cands kp.1 (asusFilenameChars img)) ≠
        AsusClass.modified) :
    detectModifiedAsus packages dirok cands = [] := by
  unfold detectModifiedAsus
  refine list_foldl_fixed _ _ _ ?_
  intro kp hkp m
  by_cases hd : dirok kp.1 = false
  · simp [hd]
  · simp only [hd, if_false, if_neg]
    exact list_foldl_fixed _ _ _
      (fun img hi acc => detectStepAsus_skip kp.1 (cands kp.1) img
        (h kp hkp img hi) acc)

/-- When no entry is classified `Modified`, the format-B detection pass
returns the empty dict. -/
theorem msiDetectModified_nil (entries : List MsiEntry) (data : List Nat)
    (cands : Nat → Nat → Option (List Nat))
    (h : ∀ e ∈ entries,
      msiClassifyCandidate data e (cands e.index e.offset) ≠
        MsiClass.modified) :
    msiDetectModified entries data cands = [] := by
  unfold msiDetectModified
  refine list_foldl_fixed _ _ _ ?_
  intro e he m
  by_cases p1 : e.offset + e.imageDataSize > data.length
  · simp [p1]
  · cases hc : cands e.index e.offset with
    | none => simp [p1, hc]
    | some cd =>
      by_cases p2 : cd = extract data e.offset e.imageDataSize
      · simp [p1, hc, p2]
      · exact absurd (by simp [msiClassifyCandidate, p1, hc, p2]) (h e he)

/-! ## Claim C2 -/

/-- C2 (confirmed): when zero entries are classified `Modified`, the
rebuild returns a buffer byte-identical to the input host buffer — for
format A (provided the scan found at least one container, which the
claim presupposes) and for format B. -/
theorem claim_C2_confirmed :
    (∀ (data : List Nat) (dirok : Nat → Bool)
        (cands : Nat → List Char → Option (List Nat)),
      detectAsus data ≠ [] →
      (∀ kp ∈ (detectAsus data).enumFrom 1, ∀ img ∈ kp.2.images,
        classifyAsusCandidate img (cands kp.1 (asusFilenameChars img)) ≠
          AsusClass.modified) →
      rebuildAsusPreserveStructure data dirok cands = some data) ∧
      ∀ (data : List Nat) (entries : List MsiEntry)
        (cands : Nat → Nat → Option (List Nat))
        (listing : List (List Char × List Nat)),
        (∀ e ∈ entries,
          msiClassifyCandidate data e (cands e.index e.offset) ≠
            MsiClass.modified) →
        msiRepackPipeline data entries cands listing = .ok data := by
  constructor
  · intro data dirok cands hne h
    have hm := detectModifiedAsus_nil (detectAsus data) dirok cands h
    have hpe : (detectAsus data).isEmpty = false := by
      cases hd : detectAsus data with
      | nil => exact absurd hd hne
      | cons p t => rfl
    simp [rebuildAsusPreserveStructure, hpe, hm, asusRebuildStrategy]
  · intro data entries cands listing h
    have hm := msiDetectModified_nil entries data cands h
    simp [msiRepackPipeline, hm]

/-- C2 (witness): round-trip identity at the concrete format-A buffer
with no candidates supplied, and at the concrete format-B buffer with an
unchanged candidate. -/
theorem claim_C2_witness :
    rebuildAsusPreserveStructure asusBuf (fun _ => true) (fun _ _ => none) =
      some asusBuf ∧
      msiRepackPipeline msiDataC [msiEntryC] msiCandsU msiListingC =
        .ok msiDataC :=
  ⟨claim_C2_confirmed.1 asusBuf _ _ (by decide) (by decide),
    claim_C2_confirmed.2 msiDataC [msiEntryC] msiCandsU msiListingC (by decide)⟩

/-! ## Helper lemmas: the classification congruence for claim C4 -/

/-- Two folds agree when their steps agree on every element. -/
theorem list_foldl_congr {α β : Type} (f g : β → α → β) :
    ∀ (l : List α) (b : β), (∀ x ∈ l, ∀ acc, f acc x = g acc x) →
      l.foldl f b = l.foldl g b := by
  intro l
  induction l with
  | nil => intro b _; rfl
  | cons x t ih =>
    intro b h
    rw [List.foldl_cons, List.foldl_cons, h x (by simp)]
    exact ih _ (fun y hy acc => h y (by simp [hy]) acc)

/-- The detection step only looks at the candidate resolved for the
entry's own filename. -/
theorem detectStepAsus_ext (k : Nat) (c c' : List Char → Option (List Nat))
    (img : AsusImage)
    (h : c (asusFilenameChars img) = c' (asusFilenameChars img)) :
    ∀ m, detectStepAsus k c m img = detectStepAsus k c' m img := by
  intro m
  simp only [detectStepAsus, h]

/-- A candidate equal to the original payload is never classified
`Modified`. -/
theorem classify_self_not_modified (img : AsusImage) :
    classifyAsusCandidate img (some img.data) ≠ AsusClass.modified := by
  unfold classifyAsusCandidate
  by_cases p1 : imageNamePattern (asusFilenameChars img) = false
  · simp [p1]
  · by_cases p2 : validateImageReplacement img img.data = false
    · simp [p1, p2]
    · simp [p1, p2]

/-- A candidate of mismatched sniffed type is never classified
`Modified`. -/
theorem classify_mismatch_not_modified (img : AsusImage) (c : List Nat)
    (h : detectAsusImageType c ≠ img.type) :
    classifyAsusCandidate img (some c) ≠ AsusClass.modified := by
  have hv : validateImageReplacement img c = false := by
    simp [validateImageReplacement, h]
  unfold classifyAsusCandidate
  by_cases p1 : imageNamePattern (asusFilenameChars img) = false
  · simp [p1]
  · simp [p1, hv]

/-- The detection pass is a congruence in the candidate resolver. -/
theorem detectModifiedAsus_congr (packages : List AsusPackage)
    (dirok : Nat → Bool) (cands cands' : Nat → List Char → Option (List Nat))
    (h : ∀ kp ∈ packages.enumFrom 1, ∀ img ∈ kp.2.images, ∀ m,
      detectStepAsus kp.1 (cands kp.1) m img =
        detectStepAsus kp.1 (cands' kp.1) m img) :
    detectModifiedAsus packages dirok cands =
      detectModifiedAsus packages dirok cands' := by
  unfold detectModifiedAsus
  refine list_foldl_congr _ _ _ _ ?_
  intro kp hkp m
  by_cases hd : dirok kp.1 = false
  · simp [hd]
  · simp only [hd, if_false, if_neg]
    exact list_foldl_congr _ _ _ _ (fun img hi acc => h kp hkp img hi acc)

/-! ## Claim C4 -/

/-- C4 (counterexample): the format-B change detector performs no type
validation — a JPEG candidate supplied for a PNG entry is classified
`Modified`, not rejected, and the rebuilt output differs from the output
obtained when the entry is treated as `Unchanged`. -/
theorem claim_C4_counterexample :
    msiDetectImageType (extract msiDataC 0 4) = msiEntryC.imageType ∧
      msiDetectImageType [0xFF, 0xD8, 0xFF, 0xE0] ≠ msiEntryC.imageType ∧
      msiClassifyCandidate msiDataC msiEntryC (msiCandsC4 0 0) =
        MsiClass.modified ∧
      msiRepackPipeline msiDataC [msiEntryC] msiCandsC4 msiListingC ≠
        msiRepackPipeline msiDataC [msiEntryC] msiCandsU msiListingC ∧
      msiRepackPipeline msiDataC [msiEntryC] msiCandsU msiListingC =
        .ok msiDataC ∧
      msiRepackPipeline msiDataC [msiEntryC] msiCandsC4 msiListingC =
        .error (.headerFailed .attributeError) := by
  decide

/-- C4 (amended): for format A the claim holds — a candidate whose
sniffed type differs from the entry's detected type is rejected, and
the rebuilt output is byte-identical to the output obtained when that
entry's candidate resolves to the original payload (the `Unchanged`
classification); format B performs no such validation (see the
counterexample). -/
theorem claim_C4_amended :
    ∀ (data : List Nat) (dirok : Nat → Bool)
      (cands : Nat → List Char → Option (List Nat))
      (k₀ : Nat) (pkg₀ : AsusPackage) (img₀ : AsusImage) (c : List Nat),
      (k₀, pkg₀) ∈ (detectAsus data).enumFrom 1 →
      img₀ ∈ pkg₀.images →
      cands k₀ (asusFilenameChars img₀) = some c →
      detectAsusImageType c ≠ img₀.type →
      (∀ kp ∈ (detectAsus data).enumFrom 1, kp.1 = k₀ →
        ∀ img ∈ kp.2.images,
          asusFilenameChars img = asusFilenameChars img₀ → img = img₀) →
      rebuildAsusPreserveStructure data dirok cands =
        rebuildAsusPreserveStructure data dirok
          (fun k n => if k = k₀ ∧ n = asusFilenameChars img₀
            then some img₀.data else cands k n) := by
  intro data dirok cands k₀ pkg₀ img₀ c hmem himg hcand htype huniq
  have hmod : detectModifiedAsus (detectAsus data) dirok cands =
      detectModifiedAsus (detectAsus data) dirok
        (fun k n => if k = k₀ ∧ n = asusFilenameChars img₀
          then some img₀.data else cands k n) := by
    refine detectModifiedAsus_congr _ dirok _ _ ?_
    intro kp hkp img hi m
    by_cases hname : kp.1 = k₀ ∧ asusFilenameChars img = asusFilenameChars img₀
    · obtain ⟨hk, hn⟩ := hname
      have himg0 : img = img₀ := huniq kp hkp hk img hi hn
      rw [detectStepAsus_skip kp.1 (cands kp.1) img ?hcl m,
        detectStepAsus_skip kp.1 _ img ?hcr m]
      case hcl =>
        rw [hn, hk, hcand]
        exact classify_mismatch_not_modified img c (himg0 ▸ htype)
      case hcr =>
        simp only [hn, hk, and_self, if_true, if_pos]
        exact himg0 ▸ classify_self_not_modified img₀
    · refine detectStepAsus_ext kp.1 _ _ img ?_ m
      rw [if_neg]
      intro hc
      exact hname ⟨hc.1, hc.2⟩
  simp only [rebuildAsusPreserveStructure, hmod]

/-- C4 (witness): the amended claim applied to the concrete format-A
container with a BMP-typed candidate for its first (type `img`)
entry. -/
theorem claim_C4_witness :
    rebuildAsusPreserveStructure asusBuf (fun _ => true) asusCandsC4 =
      rebuildAsusPreserveStructure asusBuf (fun _ => true)
        (fun k n => if k = 1 ∧
            n = asusFilenameChars (asusImagesC.getD 0 defaultAsusImage)
          then some (asusImagesC.getD 0 defaultAsusImage).data
          else asusCandsC4 k n) :=
  claim_C4_amended asusBuf (fun _ => true) asusCandsC4 1 asusPkgC
    (asusImagesC.getD 0 defaultAsusImage) [0x42, 0x4D, 0, 0]
    (by decide) (by decide) (by decide) (by decide) (by decide)

/-! ## Helper lemmas: direct replace skips size-mismatched entries -/

/-- Membership in an ordered insert. -/
theorem insertDesc_mem (x a : Nat) :
    ∀ l, a ∈ insertDesc x l ↔ a = x ∨ a ∈ l := by
  intro l
  induction l with
  | nil => simp [insertDesc]
  | cons y ys ih =>
    by_cases h : y ≤ x
    · simp [insertDesc, h]
    · simp only [insertDesc, h, if_false, if_neg, List.mem_cons, ih]
      tauto

/-- Ordered insert preserves descending sortedness. -/
theorem insertDesc_pairwise (x : Nat) :
    ∀ l, l.Pairwise (fun a b => b ≤ a) →
      (insertDesc x l).Pairwise (fun a b => b ≤ a) := by
  intro l
  induction l with
  | nil => intro _; simp [insertDesc]
  | cons y ys ih =>
    intro h
    rw [List.pairwise_cons] at h
    by_cases hxy : y ≤ x
    · simp only [insertDesc, hxy, if_true, if_pos]
      rw [List.pairwise_cons]
      refine ⟨?_, List.pairwise_cons.mpr h⟩
      intro b hb
      rcases List.mem_cons.mp hb with hb | hb
      · omega
      · have := h.1 b hb
        omega
    · simp only [insertDesc, hxy, if_false, if_neg]
      rw [List.pairwise_cons]
      refine ⟨?_, ih h.2⟩
      intro b hb
      rcases (insertDesc_mem x b ys).mp hb with hb | hb
      · omega
      · exact h.1 b hb

/-- The descending sort produces a descending-sorted list. -/
theorem sortDescNat_pairwise (l : List Nat) :
    (sortDescNat l).Pairwise (fun a b => b ≤ a) := by
  induction l with
  | nil => simp [sortDescNat]
  | cons a t ih => exact insertDesc_pairwise a _ ih

/-- Inserting above every element of a list prepends. -/
theorem insertDesc_top (x : Nat) :
    ∀ l, (∀ a ∈ l, a ≤ x) → insertDesc x l = x :: l := by
  intro l h
  cases l with
  | nil => rfl
  | cons y ys => simp [insertDesc, h y (by simp)]

/-- Filtering commutes with ordered insert on sorted lists. -/
theorem filter_insertDesc (p : Nat → Bool) (x : Nat) :
    ∀ l, l.Pairwise (fun a b => b ≤ a) →
      (insertDesc x l).filter p =
        if p x then insertDesc x (l.filter p) else l.filter p := by
  intro l
  induction l with
  | nil =>
    intro _
    cases hp : p x <;> simp [insertDesc, List.filter, hp]
  | cons y ys ih =>
    intro h
    rw [List.pairwise_cons] at h
    by_cases hxy : y ≤ x
    · have htop : insertDesc x ((y :: ys).filter p) = x :: (y :: ys).filter p := by
        refine insertDesc_top x _ ?_
        intro a ha
        have ha' := List.mem_of_mem_filter ha
        rcases List.mem_cons.mp ha' with ha' | ha'
        · omega
        · have := h.1 a ha'
          omega
      simp only [insertDesc, hxy, if_true, if_pos, htop]
      cases hp : p x <;> simp [List.filter, hp]
    · simp only [insertDesc, hxy, if_false, if_neg]
      have ihy := ih h.2
      rw [List.filter_cons, List.filter_cons, ihy]
      cases hp : p x <;> cases hpy : p y <;>
        simp [hp, hpy, insertDesc, hxy, List.filter_cons]

/-- Filtering commutes with the descending sort. -/
theorem sortDescNat_filter (p : Nat → Bool) :
    ∀ l, sortDescNat (l.filter p) = (sortDescNat l).filter p := by
  intro l
  induction l with
  | nil => rfl
  | cons a t ih =>
    show sortDescNat ((a :: t).filter p) = (insertDesc a (sortDescNat t)).filter p
    rw [filter_insertDesc p a _ (sortDescNat_pairwise t)]
    cases hp : p a
    · simp only [List.filter_cons, hp, Bool.false_eq_true, if_false, if_neg]
      exact ih
    · simp only [List.filter_cons, hp, if_true, if_pos]
      show insertDesc a (sortDescNat (t.filter p)) =
        insertDesc a ((sortDescNat t).filter p)
      exact congrArg (insertDesc a) ih

/-- Lookups of absent keys fail. -/
theorem dictGet_not_mem {α : Type} (k : Nat) :
    ∀ m : List (Nat × α), k ∉ dictKeys m → dictGet m k = none := by
  intro m
  induction m with
  | nil => intro _; rfl
  | cons ab rest ih =>
    intro h
    simp only [dictKeys, List.map_cons, List.mem_cons] at h
    push_neg at h
    obtain ⟨h1, h2⟩ := h
    cases ab with
    | mk a b =>
      simp only [dictGet, if_neg (fun hc : a = k => h1 (by simp [hc]))]
      exact ih (by simpa [dictKeys] using h2)

/-- Filtering the dict by a predicate on values filters each lookup. -/
theorem dictGet_filter {α : Type} (q : α → Bool) :
    ∀ m : List (Nat × α), (dictKeys m).Nodup → ∀ k,
      dictGet (m.filter fun kv => q kv.2) k =
        match dictGet m k with
        | some v => if q v then some v else none
        | none => none := by
  intro m
  induction m with
  | nil => intro _ k; rfl
  | cons ab rest ih =>
    intro hnd k
    simp only [dictKeys, List.map_cons, List.nodup_cons] at hnd
    obtain ⟨ha, hrest⟩ := hnd
    cases ab with
    | mk a b =>
      by_cases hk : a = k
      · subst hk
        cases hq : q b
        · simp only [List.filter_cons, hq, Bool.false_eq_true, if_false, if_neg]
          rw [ih hrest a, dictGet_not_mem a rest (by simpa [dictKeys] using ha)]
          simp [dictGet, hq]
        · simp [List.filter_cons, hq, dictGet]
      · cases hq : q b
        · simp only [List.filter_cons, hq, Bool.false_eq_true, if_false, if_neg]
          rw [ih hrest k]
          simp [dictGet, hk]
        · simp only [List.filter_cons, hq, if_true, if_pos]
          simp only [dictGet, hk, if_false, if_neg]
          exact ih hrest k

/-- Keys of the value-filtered dict. -/
theorem dictKeys_filter {α : Type} (q : α → Bool) :
    ∀ m : List (Nat × α), (dictKeys m).Nodup →
      dictKeys (m.filter fun kv => q kv.2) =
        (dictKeys m).filter
          (fun k => ((dictGet m k).map q).getD false) := by
  intro m
  induction m with
  | nil => intro _; rfl
  | cons ab rest ih =>
    intro hnd
    have hnd' := hnd
    simp only [dictKeys, List.map_cons, List.nodup_cons] at hnd
    obtain ⟨ha, hrest⟩ := hnd
    cases ab with
    | mk a b =>
      have hcongr : (dictKeys rest).filter
          (fun k => ((dictGet rest k).map q).getD false) =
          (dictKeys rest).filter
            (fun k => ((dictGet ((a, b) :: rest) k).map q).getD false) := by
        refine (List.filter_congr ?_).symm
        intro k hk
        have hka : a ≠ k := fun hc => ha (hc ▸ hk)
        simp [dictGet, hka]
      cases hq : q b
      · simp only [List.filter_cons, hq, Bool.false_eq_true, if_false, if_neg]
        rw [ih hrest]
        rw [hcongr]
        show _ = List.filter _ (a :: dictKeys rest)
        rw [List.filter_cons]
        simp [dictGet, hq]
      · simp only [List.filter_cons, hq, if_true, if_pos]
        show a :: dictKeys (List.filter (fun kv => q kv.2) rest) =
          List.filter
            (fun k => ((dictGet ((a, b) :: rest) k).map q).getD false)
            (a :: dictKeys rest)
        rw [List.filter_cons, if_pos (by simp [dictGet, hq])]
        congr 1
        rw [ih hrest, hcongr]

/-- The direct-replace fold over a filtered key list equals the fold
over the size-filtered dict: entries whose new length differs from the
original size are skipped either way. -/
theorem directReplace_fold_filter (m : List (Nat × AsusModInfo))
    (hk : (dictKeys m).Nodup) :
    ∀ (ks : List Nat) (nd : List Nat),
      ks.foldl (directReplaceStep m) nd =
        (ks.filter (fun k => ((dictGet m k).map modKept).getD false)).foldl
          (directReplaceStep (m.filter fun kv => modKept kv.2)) nd := by
  intro ks
  induction ks with
  | nil => intro nd; rfl
  | cons k kt ih =>
    intro nd
    rw [List.foldl_cons, List.filter_cons]
    cases hget : dictGet m k with
    | none =>
      rw [if_neg (by simp [hget])]
      have hstep : directReplaceStep m nd k = nd := by
        simp [directReplaceStep, hget]
      rw [hstep]
      exact ih nd
    | some v =>
      cases hkept : modKept v with
      | false =>
        rw [if_neg (by simp [hget, hkept])]
        have hlen : v.newData.length ≠ v.originalImage.size := by
          simpa [modKept] using hkept
        have hstep : directReplaceStep m nd k = nd := by
          simp [directReplaceStep, hget, hlen]
        rw [hstep]
        exact ih nd
      | true =>
        rw [if_pos (by simp [hget, hkept]), List.foldl_cons]
        have hget' : dictGet (m.filter fun kv => modKept kv.2) k = some v := by
          rw [dictGet_filter modKept m hk k, hget]
          simp [hkept]
        have hstep : directReplaceStep (m.filter fun kv => modKept kv.2) nd k =
            directReplaceStep m nd k := by
          simp [directReplaceStep, hget, hget']
        rw [hstep]
        exact ih _

/-- `_direct_replace_images` produces the same buffer as running it on
only the entries whose replacement keeps the original length. -/
theorem directReplaceImages_filter (data : List Nat)
    (m : List (Nat × AsusModInfo)) (hk : (dictKeys m).Nodup) :
    directReplaceImages data m =
      directReplaceImages data (m.filter fun kv => modKept kv.2) := by
  unfold directReplaceImages
  rw [directReplace_fold_filter m hk (sortDescNat (dictKeys m)) data]
  congr 1
  rw [dictKeys_filter modKept m hk, sortDescNat_filter]

/-! ## Claim C1 -/

/-- C1 (counterexample): candidates with individual size deltas `+1`
and `-1` (sum zero) on the concrete container keep the Direct Replace
strategy — the Structural Rebuild claimed by the spec is not chosen —
and both replacements are skipped, so the output equals the original
buffer and the replacement bytes are dropped. -/
theorem claim_C1_counterexample :
    asusTotalSizeChange asusModC1 = 0 ∧
      asusModC1.map (fun kv => asusSizeDiff kv.2) = [1, -1] ∧
      asusRebuildStrategy asusModC1 = AsusStrategy.directReplace ∧
      asusRebuildStrategy asusModC1 ≠ AsusStrategy.structuralRebuild ∧
      rebuildAsusPreserveStructure asusBuf (fun _ => true) asusCandsC1 =
        some asusBuf := by
  decide

/-- C1 (amended): when Modified entries are present with zero summed
size delta, the rebuild keeps the Direct Replace strategy (it never
falls through to Structural Rebuild); during substitution every
Modified entry whose replacement length differs from the original size
is skipped with its original payload retained — the output equals the
direct replacement of only the length-preserving entries. -/
theorem claim_C1_amended :
    ∀ (data : List Nat) (m : List (Nat × AsusModInfo)),
      m ≠ [] → asusTotalSizeChange m = 0 → (dictKeys m).Nodup →
      asusRebuildStrategy m = AsusStrategy.directReplace ∧
        asusRebuildStrategy m ≠ AsusStrategy.structuralRebuild ∧
        directReplaceImages data m =
          directReplaceImages data (m.filter fun kv => modKept kv.2) := by
  intro data m hne htot hnd
  have hie : m.isEmpty = false := by
    cases m with
    | nil => exact absurd rfl hne
    | cons a t => rfl
  have hstrat : asusRebuildStrategy m = AsusStrategy.directReplace := by
    simp [asusRebuildStrategy, hie, htot]
  exact ⟨hstrat, by rw [hstrat]; intro hc; exact AsusStrategy.noConfusion hc,
    directReplaceImages_filter data m hnd⟩

/-- C1 (witness): the amended claim applied to the concrete
zero-sum-delta modified dict of `asusBuf`. -/
theorem claim_C1_witness :
    asusRebuildStrategy asusModC1 = AsusStrategy.directReplace ∧
      asusRebuildStrategy asusModC1 ≠ AsusStrategy.structuralRebuild ∧
      directReplaceImages asusBuf asusModC1 =
        directReplaceImages asusBuf
          (asusModC1.filter fun kv => modKept kv.2) :=
  claim_C1_amended asusBuf asusModC1 (by decide) (by decide) (by decide)

/-! ## Helper lemmas: emitted-entry layout -/

/-- A whole list is a slice of itself. -/
theorem extract_self (x : List Nat) (n : Nat) (h : n = x.length) :
    extract x 0 n = x := by
  subst h
  exact extract_all x

/-- The prefix of a concatenation is a slice. -/
theorem extract_prefix (x y : List Nat) (n : Nat) (h : n = x.length) :
    extract (x ++ y) 0 n = x := by
  subst h
  rw [extract_append_inner x y 0 _ (by omega)]
  exact extract_all x

/-- A slice starting exactly at the end of the left part. -/
theorem extract_shift (x y : List Nat) (a n : Nat) (h : a = x.length) :
    extract (x ++ y) a n = extract y 0 n := by
  subst h
  have := extract_append_shift x y 0 n
  simpa using this

/-- The emitted special pattern always has exactly 24 bytes. -/
theorem asusSpecialPatternOf_length (data : List Nat) (img : AsusImage) :
    (asusSpecialPatternOf data img).length = 24 := by
  unfold asusSpecialPatternOf
  by_cases h1 : img.specialPattern.length = 24
  · simp [h1]
  · simp only [h1, if_false, if_neg]
    by_cases h2 : img.metadataOffset + 32 ≤ data.length
    · simp only [h2, if_true, if_pos]
      rw [extract_length]
      omega
    · simp only [h2, if_false, if_neg]
      by_cases h3 : img.number = 1 <;>
        simp [h3, asusDefaultPattern1, asusDefaultPattern2]

/-- Layout of one emitted format-A entry: total length, the size field,
the payload bytes, and the zero padding. -/
theorem asusEntryEmit_facts (data : List Nat) (m : List (Nat × AsusModInfo))
    (img : AsusImage) :
    (asusEntryEmit data m img).length =
      32 + (asusPayloadOf m img).length +
        asusPad (asusPayloadOf m img).length ∧
      extract (asusEntryEmit data m img) 0 4 =
        le4 (asusPayloadOf m img).length ∧
      extract (asusEntryEmit data m img) 32 (asusPayloadOf m img).length =
        asusPayloadOf m img ∧
      extract (asusEntryEmit data m img)
        (32 + (asusPayloadOf m img).length)
        (asusPad (asusPayloadOf m img).length) =
        List.replicate (asusPad (asusPayloadOf m img).length) 0 := by
  have hpat := asusSpecialPatternOf_length data img
  refine ⟨?_, ?_, ?_, ?_⟩
  · simp [asusEntryEmit, le4, hpat]
    omega
  · have hassoc : asusEntryEmit data m img =
        le4 (asusPayloadOf m img).length ++
          (le4 0x20 ++ (asusSpecialPatternOf data img ++
            (asusPayloadOf m img ++
              List.replicate (asusPad (asusPayloadOf m img).length) 0))) := by
      simp [asusEntryEmit, List.append_assoc]
    rw [hassoc]
    refine extract_prefix _ _ 4 ?_
    simp [le4]
  · have hassoc : asusEntryEmit data m img =
        (le4 (asusPayloadOf m img).length ++ le4 0x20 ++
          asusSpecialPatternOf data img) ++
          (asusPayloadOf m img ++
            List.replicate (asusPad (asusPayloadOf m img).length) 0) := by
      simp [asusEntryEmit, List.append_assoc]
    rw [hassoc, extract_shift _ _ 32 _ (by simp [le4, hpat]),
      extract_prefix _ _ _ rfl]
  · have hassoc : asusEntryEmit data m img =
        ((le4 (asusPayloadOf m img).length ++ le4 0x20 ++
          asusSpecialPatternOf data img) ++ asusPayloadOf m img) ++
            List.replicate (asusPad (asusPayloadOf m img).length) 0 := by
      simp [asusEntryEmit, List.append_assoc]
    rw [hassoc, extract_shift _ _ _ _ (by simp [le4, hpat]; omega),
      extract_self _ _ (by simp)]

/-- `getD` through `map` (with the throwaway default image). -/
theorem map_getD_img (f : AsusImage → List Nat) :
    ∀ (images : List AsusImage) (i : Nat), i < images.length →
      (images.map f).getD i [] = f (images.getD i defaultAsusImage) := by
  intro images
  induction images with
  | nil => intro i h; simp at h
  | cons x t ih =>
    intro i h
    cases i with
    | zero => rfl
    | succ j => exact ih j (by simpa using h)

/-- A number-sorted image list is left unchanged by the stable sort. -/
theorem sortImages_id :
    ∀ images : List AsusImage, numbersSortedB images = true →
      sortImagesByNumber images = images := by
  intro images
  induction images with
  | nil => intro _; rfl
  | cons x t ih =>
    cases t with
    | nil => intro _; rfl
    | cons y s =>
      intro h
      have hh : x.number ≤ y.number ∧ numbersSortedB (y :: s) = true := by
        have := h
        simp only [numbersSortedB, Bool.and_eq_true, decide_eq_true_eq] at this
        exact this
      show insertImgByNumber x (sortImagesByNumber (y :: s)) = x :: y :: s
      rw [ih hh.2]
      simp [insertImgByNumber, hh.1]

/-- The byte-level layout facts of the emitted entries segment: the
size field is the little-endian encoding of the emitted payload's
length, the payload occupies its slot, the padding is all zeros, and
the next entry's metadata starts exactly at the end of the padded
payload. -/
theorem asusSeg_facts (data : List Nat) (m : List (Nat × AsusModInfo))
    (images : List AsusImage) (i : Nat) (h : i < images.length) :
    extract (asusEntriesBytes data m images) (asusEntryStart data m images i)
      4 = le4 (asusPayloadOf m (images.getD i defaultAsusImage)).length ∧
      extract (asusEntriesBytes data m images)
        (asusPayloadStart data m images i)
        (asusPayloadOf m (images.getD i defaultAsusImage)).length =
        asusPayloadOf m (images.getD i defaultAsusImage) ∧
      extract (asusEntriesBytes data m images)
        (asusPayloadEnd data m images i)
        (asusPad (asusPayloadOf m (images.getD i defaultAsusImage)).length) =
        List.replicate
          (asusPad (asusPayloadOf m (images.getD i defaultAsusImage)).length)
          0 ∧
      asusEntryStart data m images (i + 1) = asusPaddedEnd data m images i := by
  have hlenb : i < (images.map (asusEntryEmit data m)).length := by
    simpa using h
  have hblock : (images.map (asusEntryEmit data m)).getD i [] =
      asusEntryEmit data m (images.getD i defaultAsusImage) :=
    map_getD_img _ images i h
  obtain ⟨hle, hsz, hpl, hpd⟩ :=
    asusEntryEmit_facts data m (images.getD i defaultAsusImage)
  refine ⟨?_, ?_, ?_, ?_⟩
  · have h0 := flatten_extract (images.map (asusEntryEmit data m)) i 0 4 hlenb
      (by rw [hblock, hle]; try omega)
    rw [hblock, hsz, Nat.add_zero] at h0
    exact h0
  · have h0 := flatten_extract (images.map (asusEntryEmit data m)) i 32
      (asusPayloadOf m (images.getD i defaultAsusImage)).length hlenb
      (by rw [hblock, hle]; try omega)
    rw [hblock, hpl] at h0
    exact h0
  · have h0 := flatten_extract (images.map (asusEntryEmit data m)) i
      (32 + (asusPayloadOf m (images.getD i defaultAsusImage)).length)
      (asusPad (asusPayloadOf m (images.getD i defaultAsusImage)).length)
      hlenb (by rw [hblock, hle]; try omega)
    rw [hblock, hpd, ← Nat.add_assoc] at h0
    exact h0
  · have hsucc := blocksStart_succ (images.map (asusEntryEmit data m)) i hlenb
    rw [hblock, hle] at hsucc
    show blocksStart (images.map (asusEntryEmit data m)) (i + 1) = _
    rw [hsucc]
    show _ = blocksStart (images.map (asusEntryEmit data m)) i + 32 +
      (asusPayloadOf m (images.getD i defaultAsusImage)).length +
      asusPad (asusPayloadOf m (images.getD i defaultAsusImage)).length
    omega

/-- Decoding the emitted 4-byte size field recovers the payload length
modulo `2^32`. -/
theorem bytesToNatLE_le4 (n : Nat) : bytesToNatLE (le4 n) = n % 4294967296 := by
  simp [bytesToNatLE, le4]
  omega

/-- The structural rebuild output contains each package's entries
segment contiguously. -/
theorem asusPackagesEmit_decomp (data : List Nat)
    (m : List (Nat × AsusModInfo)) :
    ∀ (pkgs : List AsusPackage) (pos : Nat) (p : AsusPackage), p ∈ pkgs →
      ∃ pre post, asusPackagesEmit data m pos pkgs =
        pre ++ asusEntriesBytes data m (sortImagesByNumber p.images) ++ post := by
  intro pkgs
  induction pkgs with
  | nil => intro pos p hp; simp at hp
  | cons q rest ih =>
    intro pos p hp
    rcases List.mem_cons.mp hp with hp | hp
    · subst hp
      refine ⟨(if pos < p.headerOffset then
          extract data pos (p.headerOffset - pos) else []) ++
          extract data p.headerOffset (p.headerEnd - p.headerOffset),
        asusPackagesEmit data m (p.headerOffset + p.totalSize) rest, ?_⟩
      simp [asusPackagesEmit, asusPackageEmit, List.append_assoc]
    · obtain ⟨pre, post, hpre⟩ := ih (q.headerOffset + q.totalSize) p hp
      exact ⟨asusPackageEmit data m pos q ++ pre, post,
        by simp [asusPackagesEmit, hpre, List.append_assoc]⟩

/-! ## Helper lemmas: the MSI no-structure-info emission -/

/-- The 13-byte header `_create_msi_header` actually produces (the
5-byte signature grows the 12-byte array and `header[4] = 0` lands on
the signature's trailing byte). -/
theorem msiCreateHeader_parts (n s : Nat) :
    msiCreateHeader n s = [36, 77, 115, 73, 0, 0, n % 256, 0] ++ le4 s ++ [0] :=
  rfl

/-- One block per file. -/
theorem msiBasicBlocksFrom_length :
    ∀ (files : List (List Char × List Nat)) (j : Nat),
      (msiBasicBlocksFrom j files).length = files.length := by
  intro files
  induction files with
  | nil => intro j; rfl
  | cons f rest ih => intro j; simp [msiBasicBlocksFrom, ih]

/-- The `i`-th emitted block. -/
theorem msiBasicBlocksFrom_getD :
    ∀ (files : List (List Char × List Nat)) (j i : Nat), i < files.length →
      (msiBasicBlocksFrom j files).getD i [] =
        msiCreateHeader (j + i) ((files.getD i ([], [])).2.length) ++
          (files.getD i ([], [])).2 := by
  intro files
  induction files with
  | nil => intro j i h; simp at h
  | cons f rest ih =>
    intro j i h
    cases i with
    | zero => rfl
    | succ k =>
      have := ih (j + 1) k (by simpa using h)
      simpa [msiBasicBlocksFrom, Nat.add_assoc, Nat.add_comm 1 k] using this

/-- Without structure info the binary creation emits exactly the
default-header blocks in order, and never fails. -/
theorem msiCreateBinaryGo_none :
    ∀ (files : List (List Char × List Nat)) (i : Nat) (out : List Nat),
      msiCreateBinaryGo none i files out =
        .ok (out ++ (msiBasicBlocksFrom i files).flatten) := by
  intro files
  induction files with
  | nil => intro i out; simp [msiCreateBinaryGo, msiBasicBlocksFrom]
  | cons f rest ih =>
    intro i out
    simp only [msiCreateBinaryGo, ih, msiBasicBlocksFrom, List.flatten_cons]
    simp [List.append_assoc]

/-- Layout facts of the no-structure-info MSI output: the size field at
block offset 8 encodes the payload length, the payload follows the
13-byte header, and the next block begins right after the payload. -/
theorem msiBlock_facts (files : List (List Char × List Nat)) (i : Nat)
    (h : i < files.length) :
    extract ((msiBasicBlocksFrom 0 files).flatten)
      (msiBlockStart files i + 8) 4 =
      le4 (files.getD i ([], [])).2.length ∧
      extract ((msiBasicBlocksFrom 0 files).flatten)
        (msiBlockStart files i + 13) (files.getD i ([], [])).2.length =
        (files.getD i ([], [])).2 ∧
      msiBlockStart files (i + 1) =
        msiBlockStart files i + 13 + (files.getD i ([], [])).2.length := by
  have hlenb : i < (msiBasicBlocksFrom 0 files).length := by
    rw [msiBasicBlocksFrom_length]
    exact h
  have hblock := msiBasicBlocksFrom_getD files 0 i h
  rw [Nat.zero_add] at hblock
  have hhead : (msiCreateHeader i (files.getD i ([], [])).2.length).length =
      13 := by
    rw [msiCreateHeader_parts]
    simp [le4]
  have hblen : ((msiBasicBlocksFrom 0 files).getD i []).length =
      13 + (files.getD i ([], [])).2.length := by
    rw [hblock, List.length_append, hhead]
  refine ⟨?_, ?_, ?_⟩
  · have h0 := flatten_extract (msiBasicBlocksFrom 0 files) i 8 4 hlenb
      (by rw [hblen]; omega)
    rw [hblock] at h0
    have hre : msiCreateHeader i (files.getD i ([], [])).2.length ++
        (files.getD i ([], [])).2 =
        [36, 77, 115, 73, 0, 0, i % 256, 0] ++
          (le4 (files.getD i ([], [])).2.length ++
            ([0] ++ (files.getD i ([], [])).2)) := by
      rw [msiCreateHeader_parts]
      simp [List.append_assoc]
    rw [hre, extract_shift _ _ 8 _ (by simp)] at h0
    show extract ((msiBasicBlocksFrom 0 files).flatten)
      (blocksStart (msiBasicBlocksFrom 0 files) i + 8) 4 = _
    rw [h0]
    refine extract_prefix _ _ 4 ?_
    simp [le4]
  · have h0 := flatten_extract (msiBasicBlocksFrom 0 files) i 13
      (files.getD i ([], [])).2.length hlenb (by rw [hblen]; try omega)
    rw [hblock, extract_shift _ _ 13 _ hhead.symm,
      extract_self _ _ rfl] at h0
    exact h0
  · have hsucc := blocksStart_succ (msiBasicBlocksFrom 0 files) i hlenb
    rw [hblen] at hsucc
    show blocksStart (msiBasicBlocksFrom 0 files) (i + 1) = _
    rw [hsucc]
    show _ = blocksStart (msiBasicBlocksFrom 0 files) i + 13 +
      (files.getD i ([], [])).2.length
    omega

/-! ## Claim C3 -/

/-- C3 (counterexample): in the emitted segment of the concrete
container, the payload of entry 1 does NOT begin immediately after the
end of entry 0's padded payload — that position holds entry 1's size
field, and the payload begins 32 bytes (one metadata block) later. -/
theorem claim_C3_counterexample :
    asusPayloadStart asusBuf [] asusImagesC 1 ≠
        asusPaddedEnd asusBuf [] asusImagesC 0 ∧
      extract (asusEntriesBytes asusBuf [] asusImagesC)
        (asusPaddedEnd asusBuf [] asusImagesC 0)
        (asusPayloadOf [] (asusImagesC.getD 1 defaultAsusImage)).length ≠
        asusPayloadOf [] (asusImagesC.getD 1 defaultAsusImage) ∧
      extract (asusEntriesBytes asusBuf [] asusImagesC)
        (asusPaddedEnd asusBuf [] asusImagesC 0 + 32)
        (asusPayloadOf [] (asusImagesC.getD 1 defaultAsusImage)).length =
        asusPayloadOf [] (asusImagesC.getD 1 defaultAsusImage) ∧
      numbersSortedB asusImagesC = true := by
  decide

/-- C3 (amended): in a Structural Rebuild the emitted 4-byte
little-endian size field of each entry equals (modulo `2^32`) the
actual emitted payload length, entries are emitted in their original
order with none dropped (the stable by-number sort is the identity on
the scan's number-sorted images), the payload occupies its slot, and
the next entry's 32-byte metadata block — not its payload — begins
immediately after the end of the previous entry's padded payload; for
format B (which only completes without structure info) the 13-byte
emitted header carries the size field at offset 8 and the next header
begins immediately after the payload. -/
theorem claim_C3_amended :
    (∀ (data : List Nat) (m : List (Nat × AsusModInfo))
        (images : List AsusImage) (i : Nat),
      numbersSortedB images = true → i < images.length →
      sortImagesByNumber images = images ∧
        extract (asusEntriesBytes data m images)
          (asusEntryStart data m images i) 4 =
          le4 (asusPayloadOf m (images.getD i defaultAsusImage)).length ∧
        bytesToNatLE (extract (asusEntriesBytes data m images)
          (asusEntryStart data m images i) 4) =
          (asusPayloadOf m (images.getD i defaultAsusImage)).length %
            4294967296 ∧
        extract (asusEntriesBytes data m images)
          (asusPayloadStart data m images i)
          (asusPayloadOf m (images.getD i defaultAsusImage)).length =
          asusPayloadOf m (images.getD i defaultAsusImage) ∧
        asusEntryStart data m images (i + 1) =
          asusPaddedEnd data m images i) ∧
      ∀ (files : List (List Char × List Nat)) (i : Nat), i < files.length →
        msiCreateBinaryWithStructure files none =
          .ok ((msiBasicBlocksFrom 0 files).flatten) ∧
          extract ((msiBasicBlocksFrom 0 files).flatten)
            (msiBlockStart files i + 8) 4 =
            le4 (files.getD i ([], [])).2.length ∧
          bytesToNatLE (extract ((msiBasicBlocksFrom 0 files).flatten)
            (msiBlockStart files i + 8) 4) =
            (files.getD i ([], [])).2.length % 4294967296 ∧
          extract ((msiBasicBlocksFrom 0 files).flatten)
            (msiBlockStart files i + 13) (files.getD i ([], [])).2.length =
            (files.getD i ([], [])).2 ∧
          msiBlockStart files (i + 1) =
            msiBlockStart files i + 13 + (files.getD i ([], [])).2.length := by
  constructor
  · intro data m images i hsort hi
    obtain ⟨h1, h2, _, h4⟩ := asusSeg_facts data m images i hi
    exact ⟨sortImages_id images hsort, h1,
      by rw [h1, bytesToNatLE_le4], h2, h4⟩
  · intro files i hi
    obtain ⟨h1, h2, h3⟩ := msiBlock_facts files i hi
    refine ⟨?_, h1, by rw [h1, bytesToNatLE_le4], h2, h3⟩
    unfold msiCreateBinaryWithStructure
    rw [msiCreateBinaryGo_none files 0 []]
    rfl

/-- C3 (witness): the amended claim applied to the concrete container's
images (entry 0) and to the concrete two-file MSI listing (entry 0). -/
theorem claim_C3_witness :
    (sortImagesByNumber asusImagesC = asusImagesC ∧
      extract (asusEntriesBytes asusBuf [] asusImagesC)
        (asusEntryStart asusBuf [] asusImagesC 0) 4 =
        le4 (asusPayloadOf [] (asusImagesC.getD 0 defaultAsusImage)).length ∧
      bytesToNatLE (extract (asusEntriesBytes asusBuf [] asusImagesC)
        (asusEntryStart asusBuf [] asusImagesC 0) 4) =
        (asusPayloadOf [] (asusImagesC.getD 0 defaultAsusImage)).length %
          4294967296 ∧
      extract (asusEntriesBytes asusBuf [] asusImagesC)
        (asusPayloadStart asusBuf [] asusImagesC 0)
        (asusPayloadOf [] (asusImagesC.getD 0 defaultAsusImage)).length =
        asusPayloadOf [] (asusImagesC.getD 0 defaultAsusImage) ∧
      asusEntryStart asusBuf [] asusImagesC 1 =
        asusPaddedEnd asusBuf [] asusImagesC 0) ∧
      (msiCreateBinaryWithStructure msiListingC none =
        .ok ((msiBasicBlocksFrom 0 msiListingC).flatten) ∧
        extract ((msiBasicBlocksFrom 0 msiListingC).flatten)
          (msiBlockStart msiListingC 0 + 8) 4 =
          le4 (msiListingC.getD 0 ([], [])).2.length ∧
        bytesToNatLE (extract ((msiBasicBlocksFrom 0 msiListingC).flatten)
          (msiBlockStart msiListingC 0 + 8) 4) =
          (msiListingC.getD 0 ([], [])).2.length % 4294967296 ∧
        extract ((msiBasicBlocksFrom 0 msiListingC).flatten)
          (msiBlockStart msiListingC 0 + 13)
          (msiListingC.getD 0 ([], [])).2.length =
          (msiListingC.getD 0 ([], [])).2 ∧
        msiBlockStart msiListingC 1 =
          msiBlockStart msiListingC 0 + 13 +
            (msiListingC.getD 0 ([], [])).2.length) :=
  ⟨claim_C3_amended.1 asusBuf [] asusImagesC 0 (by decide) (by decide),
    claim_C3_amended.2 msiListingC 0 (by decide)⟩

/-! ## Claim C6 -/

/-- C6 (confirmed): in every format-A Structural Rebuild output, each
emitted payload of length `s` is followed by exactly
`(4 - s mod 4) mod 4` zero bytes before the next entry's metadata
begins — the gap is exactly that many bytes (never more, never fewer)
and consists of zeros. -/
theorem claim_C6_confirmed :
    ∀ (data : List Nat) (m : List (Nat × AsusModInfo))
      (pkgs : List AsusPackage) (p : AsusPackage) (i : Nat),
      p ∈ pkgs → i < (sortImagesByNumber p.images).length →
      ∃ pre post,
        structurePreservingRebuild data pkgs m =
          pre ++ asusEntriesBytes data m (sortImagesByNumber p.images) ++
            post ∧
          extract (asusEntriesBytes data m (sortImagesByNumber p.images))
            (asusPayloadEnd data m (sortImagesByNumber p.images) i)
            (asusPad (asusPayloadOf m
              ((sortImagesByNumber p.images).getD i
                defaultAsusImage)).length) =
            List.replicate (asusPad (asusPayloadOf m
              ((sortImagesByNumber p.images).getD i
                defaultAsusImage)).length) 0 ∧
          asusEntryStart data m (sortImagesByNumber p.images) (i + 1) =
            asusPayloadEnd data m (sortImagesByNumber p.images) i +
              asusPad (asusPayloadOf m
                ((sortImagesByNumber p.images).getD i
                  defaultAsusImage)).length := by
  intro data m pkgs p i hp hi
  obtain ⟨pre, post, hdecomp⟩ := asusPackagesEmit_decomp data m pkgs 0 p hp
  obtain ⟨-, -, hpad, hsucc⟩ :=
    asusSeg_facts data m (sortImagesByNumber p.images) i hi
  exact ⟨pre, post, hdecomp, hpad, hsucc⟩

/-- C6 (witness): the alignment invariant at entry 0 of the concrete
container's structural rebuild. -/
theorem claim_C6_witness :
    ∃ pre post,
      structurePreservingRebuild asusBuf (detectAsus asusBuf) [] =
        pre ++ asusEntriesBytes asusBuf []
          (sortImagesByNumber asusPkgC.images) ++ post ∧
        extract (asusEntriesBytes asusBuf []
          (sortImagesByNumber asusPkgC.images))
          (asusPayloadEnd asusBuf [] (sortImagesByNumber asusPkgC.images) 0)
          (asusPad (asusPayloadOf []
            ((sortImagesByNumber asusPkgC.images).getD 0
              defaultAsusImage)).length) =
          List.replicate (asusPad (asusPayloadOf []
            ((sortImagesByNumber asusPkgC.images).getD 0
              defaultAsusImage)).length) 0 ∧
        asusEntryStart asusBuf [] (sortImagesByNumber asusPkgC.images) 1 =
          asusPayloadEnd asusBuf []
            (sortImagesByNumber asusPkgC.images) 0 +
            asusPad (asusPayloadOf []
              ((sortImagesByNumber asusPkgC.images).getD 0
                defaultAsusImage)).length :=
  claim_C6_confirmed asusBuf [] (detectAsus asusBuf) asusPkgC 0
    (by decide) (by decide)
